import Mathlib

/-!
Shallow embedding of `src/rotation.rs` (the rotation trait family and the
matrix-backed `Basis2` / `Basis3` rotation types) over the real numbers.
Scalars `S : BaseFloat` are modelled as `ℝ`, angles `Rad<S>` as plain reals,
and the approximate-equality used by the floating-point code becomes exact
equality over `ℝ`.  The vector / point / matrix / quaternion collaborators
(`vector.rs`, `matrix.rs`, `quaternion.rs`, `point.rs`) are not part of the
provided sources; their operations are modelled from the spec, as noted on
each definition.  Fallible operations (`invert`, which calls `unwrap` on the
collaborator's `Option` result and panics on `None`) return `Option`.
-/

noncomputable section

namespace Cgmath

/-- Modelled from the spec: the two-dimensional vector collaborator
(`Vector2<S>`), a pair of scalars. -/
@[ext]
structure Vector2 where
  x : ℝ
  y : ℝ

/-- Modelled from the spec: dot product of two-dimensional vectors. -/
def Vector2.dot (a b : Vector2) : ℝ := a.x * b.x + a.y * b.y

/-- Modelled from the spec: perpendicular dot product (the scalar 2D cross
product), which gives the sine of the signed angle between unit vectors. -/
def Vector2.perp_dot (a b : Vector2) : ℝ := a.x * b.y - a.y * b.x

/-- Modelled from the spec: squared magnitude of a two-dimensional vector. -/
def Vector2.magnitude2 (a : Vector2) : ℝ := a.dot a

/-- Modelled from the spec: a vector scaled to unit length. -/
def Vector2.normalize (a : Vector2) : Vector2 :=
  ⟨a.x / Real.sqrt a.magnitude2, a.y / Real.sqrt a.magnitude2⟩

/-- Modelled from the spec: the two-dimensional point collaborator
(`Point2<S>`). -/
@[ext]
structure Point2 where
  x : ℝ
  y : ℝ

/-- Modelled from the spec: a point from its vector representation. -/
def Point2.from_vec (v : Vector2) : Point2 := ⟨v.x, v.y⟩

/-- Modelled from the spec: the vector representation of a point. -/
def Point2.to_vec (p : Point2) : Vector2 := ⟨p.x, p.y⟩

/-- Modelled from the spec: the 2×2 matrix collaborator (`Matrix2<S>`),
stored column-major as in the source: field `x` is column 0, `y` column 1. -/
@[ext]
structure Matrix2 where
  x : Vector2
  y : Vector2

/-- Modelled from the spec: the identity 2×2 matrix. -/
def Matrix2.identity : Matrix2 := ⟨⟨1, 0⟩, ⟨0, 1⟩⟩

/-- Modelled from the spec: the 2×2 matrix of the rotation by the signed
angle `theta` (positive = counter-clockwise). -/
def Matrix2.from_angle (theta : ℝ) : Matrix2 :=
  ⟨⟨Real.cos theta, Real.sin theta⟩, ⟨-Real.sin theta, Real.cos theta⟩⟩

/-- Modelled from the spec: matrix–vector product. -/
def Matrix2.mulVec (m : Matrix2) (v : Vector2) : Vector2 :=
  ⟨m.x.x * v.x + m.y.x * v.y, m.x.y * v.x + m.y.y * v.y⟩

/-- Modelled from the spec: matrix–matrix product. -/
def Matrix2.mul (a b : Matrix2) : Matrix2 := ⟨a.mulVec b.x, a.mulVec b.y⟩

/-- Modelled from the spec: the transpose of a 2×2 matrix. -/
def Matrix2.transpose (m : Matrix2) : Matrix2 :=
  ⟨⟨m.x.x, m.y.x⟩, ⟨m.x.y, m.y.y⟩⟩

/-- Modelled from the spec: the determinant of a 2×2 matrix. -/
def Matrix2.det (m : Matrix2) : ℝ := m.x.x * m.y.y - m.y.x * m.x.y

/-- Modelled from the spec: the value of the general 2×2 matrix inverse in
the invertible case (adjugate over determinant). -/
def Matrix2.invMat (m : Matrix2) : Matrix2 :=
  ⟨⟨m.y.y / m.det, -m.x.y / m.det⟩, ⟨-m.y.x / m.det, m.x.x / m.det⟩⟩

/-- Modelled from the spec: the general 2×2 matrix inverse used by
`Basis2::invert`; reports `none` (the collaborator's non-invertibility
signal, on which the caller's `unwrap` panics) when the determinant
vanishes. -/
def Matrix2.invert (m : Matrix2) : Option Matrix2 :=
  if m.det = 0 then none else some m.invMat

/-- Modelled from the spec: the 2D look-at constructor of the matrix
collaborator — the rotation aligning the canonical forward axis (column 0)
with the direction of `dir`, with `up` disambiguating which of the two
perpendicular orientations completes the basis. -/
def Matrix2.look_at (dir up : Vector2) : Matrix2 :=
  if 0 ≤ dir.perp_dot up then
    ⟨dir.normalize, ⟨-dir.normalize.y, dir.normalize.x⟩⟩
  else
    ⟨dir.normalize, ⟨dir.normalize.y, -dir.normalize.x⟩⟩

/-- Modelled from the spec: the three-dimensional vector collaborator
(`Vector3<S>`). -/
@[ext]
structure Vector3 where
  x : ℝ
  y : ℝ
  z : ℝ

/-- Modelled from the spec: dot product of three-dimensional vectors. -/
def Vector3.dot (a b : Vector3) : ℝ := a.x * b.x + a.y * b.y + a.z * b.z

/-- Modelled from the spec: cross product of three-dimensional vectors. -/
def Vector3.cross (a b : Vector3) : Vector3 :=
  ⟨a.y * b.z - a.z * b.y, a.z * b.x - a.x * b.z, a.x * b.y - a.y * b.x⟩

/-- Modelled from the spec: squared magnitude of a three-dimensional
vector. -/
def Vector3.magnitude2 (a : Vector3) : ℝ := a.dot a

/-- Modelled from the spec: a vector scaled to unit length. -/
def Vector3.normalize (a : Vector3) : Vector3 :=
  ⟨a.x / Real.sqrt a.magnitude2, a.y / Real.sqrt a.magnitude2,
   a.z / Real.sqrt a.magnitude2⟩

/-- Modelled from the spec: the unit basis vector along x. -/
def Vector3.unit_x : Vector3 := ⟨1, 0, 0⟩

/-- Modelled from the spec: the unit basis vector along y. -/
def Vector3.unit_y : Vector3 := ⟨0, 1, 0⟩

/-- Modelled from the spec: the unit basis vector along z. -/
def Vector3.unit_z : Vector3 := ⟨0, 0, 1⟩

/-- Modelled from the spec: the three-dimensional point collaborator
(`Point3<S>`). -/
@[ext]
structure Point3 where
  x : ℝ
  y : ℝ
  z : ℝ

/-- Modelled from the spec: a point from its vector representation. -/
def Point3.from_vec (v : Vector3) : Point3 := ⟨v.x, v.y, v.z⟩

/-- Modelled from the spec: the vector representation of a point. -/
def Point3.to_vec (p : Point3) : Vector3 := ⟨p.x, p.y, p.z⟩

/-- Modelled from the spec: the 3×3 matrix collaborator (`Matrix3<S>`),
stored column-major: fields `x`, `y`, `z` are columns 0, 1, 2. -/
@[ext]
structure Matrix3 where
  x : Vector3
  y : Vector3
  z : Vector3

/-- Modelled from the spec: the identity 3×3 matrix. -/
def Matrix3.identity : Matrix3 := ⟨⟨1, 0, 0⟩, ⟨0, 1, 0⟩, ⟨0, 0, 1⟩⟩

/-- Modelled from the spec: matrix–vector product. -/
def Matrix3.mulVec (m : Matrix3) (v : Vector3) : Vector3 :=
  ⟨m.x.x * v.x + m.y.x * v.y + m.z.x * v.z,
   m.x.y * v.x + m.y.y * v.y + m.z.y * v.z,
   m.x.z * v.x + m.y.z * v.y + m.z.z * v.z⟩

/-- Modelled from the spec: matrix–matrix product. -/
def Matrix3.mul (a b : Matrix3) : Matrix3 :=
  ⟨a.mulVec b.x, a.mulVec b.y, a.mulVec b.z⟩

/-- Modelled from the spec: the transpose of a 3×3 matrix. -/
def Matrix3.transpose (m : Matrix3) : Matrix3 :=
  ⟨⟨m.x.x, m.y.x, m.z.x⟩, ⟨m.x.y, m.y.y, m.z.y⟩, ⟨m.x.z, m.y.z, m.z.z⟩⟩

/-- Modelled from the spec: the trace of a 3×3 matrix. -/
def Matrix3.trace (m : Matrix3) : ℝ := m.x.x + m.y.y + m.z.z

/-- Modelled from the spec: the determinant of a 3×3 matrix. -/
def Matrix3.det (m : Matrix3) : ℝ :=
  m.x.x * (m.y.y * m.z.z - m.z.y * m.y.z)
  - m.y.x * (m.x.y * m.z.z - m.z.y * m.x.z)
  + m.z.x * (m.x.y * m.y.z - m.y.y * m.x.z)

/-- Modelled from the spec: a matrix with every entry scaled by `s`. -/
def Matrix3.smul (s : ℝ) (m : Matrix3) : Matrix3 :=
  ⟨⟨s * m.x.x, s * m.x.y, s * m.x.z⟩,
   ⟨s * m.y.x, s * m.y.y, s * m.y.z⟩,
   ⟨s * m.z.x, s * m.z.y, s * m.z.z⟩⟩

/-- Modelled from the spec: the value of the general 3×3 matrix inverse in
the invertible case (rows are the column cross products over the
determinant). -/
def Matrix3.invMat (m : Matrix3) : Matrix3 :=
  Matrix3.smul (1 / m.det)
    (Matrix3.transpose ⟨m.y.cross m.z, m.z.cross m.x, m.x.cross m.y⟩)

/-- Modelled from the spec: the general 3×3 matrix inverse used by
`Basis3::invert`; reports `none` (on which the caller's `unwrap` panics)
when the determinant vanishes. -/
def Matrix3.invert (m : Matrix3) : Option Matrix3 :=
  if m.det = 0 then none else some m.invMat

/-- Modelled from the spec: the 3×3 rotation by `theta` about the x axis. -/
def Matrix3.from_angle_x (theta : ℝ) : Matrix3 :=
  ⟨⟨1, 0, 0⟩,
   ⟨0, Real.cos theta, Real.sin theta⟩,
   ⟨0, -Real.sin theta, Real.cos theta⟩⟩

/-- Modelled from the spec: the 3×3 rotation by `theta` about the y axis. -/
def Matrix3.from_angle_y (theta : ℝ) : Matrix3 :=
  ⟨⟨Real.cos theta, 0, -Real.sin theta⟩,
   ⟨0, 1, 0⟩,
   ⟨Real.sin theta, 0, Real.cos theta⟩⟩

/-- Modelled from the spec: the 3×3 rotation by `theta` about the z axis. -/
def Matrix3.from_angle_z (theta : ℝ) : Matrix3 :=
  ⟨⟨Real.cos theta, Real.sin theta, 0⟩,
   ⟨-Real.sin theta, Real.cos theta, 0⟩,
   ⟨0, 0, 1⟩⟩

/-- Modelled from the spec: the 3×3 rotation by `angle` about the unit
vector `axis` (Rodrigues form; the axis is not renormalized). -/
def Matrix3.from_axis_angle (axis : Vector3) (angle : ℝ) : Matrix3 :=
  ⟨⟨(1 - Real.cos angle) * axis.x * axis.x + Real.cos angle,
    (1 - Real.cos angle) * axis.x * axis.y + Real.sin angle * axis.z,
    (1 - Real.cos angle) * axis.x * axis.z - Real.sin angle * axis.y⟩,
   ⟨(1 - Real.cos angle) * axis.x * axis.y - Real.sin angle * axis.z,
    (1 - Real.cos angle) * axis.y * axis.y + Real.cos angle,
    (1 - Real.cos angle) * axis.y * axis.z + Real.sin angle * axis.x⟩,
   ⟨(1 - Real.cos angle) * axis.x * axis.z + Real.sin angle * axis.y,
    (1 - Real.cos angle) * axis.y * axis.z - Real.sin angle * axis.x,
    (1 - Real.cos angle) * axis.z * axis.z + Real.cos angle⟩⟩

/-- Modelled from the spec: the 3×3 matrix of the rotation given by Euler
angles `x`, `y`, `z` (pitch, then yaw, then roll, in that fixed order). -/
def Matrix3.from_euler (x y z : ℝ) : Matrix3 :=
  ⟨⟨Real.cos y * Real.cos z, Real.cos y * Real.sin z, -Real.sin y⟩,
   ⟨-Real.cos x * Real.sin z + Real.sin x * Real.sin y * Real.cos z,
    Real.cos x * Real.cos z + Real.sin x * Real.sin y * Real.sin z,
    Real.sin x * Real.cos y⟩,
   ⟨Real.sin x * Real.sin z + Real.cos x * Real.sin y * Real.cos z,
    -Real.sin x * Real.cos z + Real.cos x * Real.sin y * Real.sin z,
    Real.cos x * Real.cos y⟩⟩

/-- Modelled from the spec: the 3D look-at constructor of the matrix
collaborator — rows are the orthonormalized side, up and forward axes, so
the rotation aligns the canonical forward axis with `dir`, with `up`
disambiguating the roll about it. -/
def Matrix3.look_at (dir up : Vector3) : Matrix3 :=
  Matrix3.transpose
    ⟨(up.cross dir.normalize).normalize,
     (dir.normalize.cross ((up.cross dir.normalize).normalize)).normalize,
     dir.normalize⟩

/-- Modelled from the spec: the quaternion collaborator (`Quaternion<S>`),
a scalar part `s` and a vector part `v`. -/
@[ext]
structure Quaternion where
  s : ℝ
  v : Vector3

/-- Modelled from the spec: squared magnitude of a quaternion. -/
def Quaternion.magnitude2 (q : Quaternion) : ℝ :=
  q.s * q.s + q.v.magnitude2

/-- Modelled from the spec: a quaternion scaled to unit length. -/
def Quaternion.normalize (q : Quaternion) : Quaternion :=
  ⟨q.s / Real.sqrt q.magnitude2,
   ⟨q.v.x / Real.sqrt q.magnitude2, q.v.y / Real.sqrt q.magnitude2,
    q.v.z / Real.sqrt q.magnitude2⟩⟩

/-- Modelled from the spec: the quaternion collaborator's conversion of a
(unit) quaternion into its equivalent orthogonal 3×3 matrix, used by
`Basis3::from_quaternion`; no normalization is performed. -/
def Quaternion.toMatrix3 (q : Quaternion) : Matrix3 :=
  ⟨⟨1 - 2 * q.v.y * q.v.y - 2 * q.v.z * q.v.z,
    2 * q.v.x * q.v.y + 2 * q.s * q.v.z,
    2 * q.v.x * q.v.z - 2 * q.s * q.v.y⟩,
   ⟨2 * q.v.x * q.v.y - 2 * q.s * q.v.z,
    1 - 2 * q.v.x * q.v.x - 2 * q.v.z * q.v.z,
    2 * q.v.y * q.v.z + 2 * q.s * q.v.x⟩,
   ⟨2 * q.v.x * q.v.z + 2 * q.s * q.v.y,
    2 * q.v.y * q.v.z - 2 * q.s * q.v.x,
    1 - 2 * q.v.x * q.v.x - 2 * q.v.y * q.v.y⟩⟩

open Classical in
/-- Modelled from the spec: an arbitrary unit vector perpendicular to `a`,
the fallback rotation axis the quaternion collaborator picks for the
antiparallel case of its shortest-arc construction (the cross product of a
canonical basis vector with `a`, normalized, falling back to a second basis
vector when the first is parallel to `a`). -/
def Vector3.perp_unit (a : Vector3) : Vector3 :=
  if Vector3.unit_x.cross a = ⟨0, 0, 0⟩ then (Vector3.unit_y.cross a).normalize
  else (Vector3.unit_x.cross a).normalize

/-- Modelled from the spec: the quaternion collaborator's shortest-arc
construction, the rotation mapping unit vector `a` onto unit vector `b`:
the normalized quaternion with scalar part `1 + a·b` and vector part
`a × b`; for antiparallel inputs (`a·b = -1`), a half-turn about an
arbitrary axis perpendicular to `a`. -/
def Quaternion.from_arc (a b : Vector3) : Quaternion :=
  if 1 + a.dot b = 0 then ⟨0, a.perp_unit⟩
  else Quaternion.normalize ⟨1 + a.dot b, a.cross b⟩

/-- Modelled from the spec: the quaternion collaborator's between-vectors
construction (its `Rotation` implementation delegates to the shortest-arc
construction). -/
def Quaternion.between_vectors (a b : Vector3) : Quaternion :=
  Quaternion.from_arc a b

/-- Modelled from the spec: the matrix collaborator's matrix-to-quaternion
conversion (the standard trace-based extraction with a branch per dominant
diagonal entry), used by the `From<Basis3> for Quaternion` conversion.
Entry `m.c.r` below is column `c`, row `r`. -/
def Matrix3.toQuaternion (m : Matrix3) : Quaternion :=
  if 0 ≤ m.trace then
    ⟨(1 / 2) * Real.sqrt (1 + m.trace),
     ⟨(m.y.z - m.z.y) * ((1 / 2) / Real.sqrt (1 + m.trace)),
      (m.z.x - m.x.z) * ((1 / 2) / Real.sqrt (1 + m.trace)),
      (m.x.y - m.y.x) * ((1 / 2) / Real.sqrt (1 + m.trace))⟩⟩
  else if m.x.x > m.y.y ∧ m.x.x > m.z.z then
    ⟨(m.y.z - m.z.y) * ((1 / 2) / Real.sqrt (m.x.x - m.y.y - m.z.z + 1)),
     ⟨(1 / 2) * Real.sqrt (m.x.x - m.y.y - m.z.z + 1),
      (m.x.y + m.y.x) * ((1 / 2) / Real.sqrt (m.x.x - m.y.y - m.z.z + 1)),
      (m.z.x + m.x.z) * ((1 / 2) / Real.sqrt (m.x.x - m.y.y - m.z.z + 1))⟩⟩
  else if m.y.y > m.z.z then
    ⟨(m.z.x - m.x.z) * ((1 / 2) / Real.sqrt (m.y.y - m.x.x - m.z.z + 1)),
     ⟨(m.x.y + m.y.x) * ((1 / 2) / Real.sqrt (m.y.y - m.x.x - m.z.z + 1)),
      (1 / 2) * Real.sqrt (m.y.y - m.x.x - m.z.z + 1),
      (m.y.z + m.z.y) * ((1 / 2) / Real.sqrt (m.y.y - m.x.x - m.z.z + 1))⟩⟩
  else
    ⟨(m.x.y - m.y.x) * ((1 / 2) / Real.sqrt (m.z.z - m.x.x - m.y.y + 1)),
     ⟨(m.z.x + m.x.z) * ((1 / 2) / Real.sqrt (m.z.z - m.x.x - m.y.y + 1)),
      (m.y.z + m.z.y) * ((1 / 2) / Real.sqrt (m.z.z - m.x.x - m.y.y + 1)),
      (1 / 2) * Real.sqrt (m.z.z - m.x.x - m.y.y + 1)⟩⟩

/-- Two-dimensional rotation type `Basis2` from the source: a wrapped
orthogonal 2×2 matrix. -/
@[ext]
structure Basis2 where
  mat : Matrix2

/-- Identity rotation (`Rotation::one` for `Basis2`, from the source). -/
def Basis2.one : Basis2 := ⟨Matrix2.identity⟩

/-- Look-at rotation (`Rotation::look_at` for `Basis2`, from the source):
delegates to the matrix collaborator. -/
def Basis2.look_at (dir up : Vector2) : Basis2 := ⟨Matrix2.look_at dir up⟩

/-- Angle rotation (`Rotation2::from_angle` for `Basis2`, from the
source): delegates to the matrix collaborator. -/
def Basis2.from_angle (theta : ℝ) : Basis2 := ⟨Matrix2.from_angle theta⟩

/-- Shortest-arc rotation (`Rotation::between_vectors` for `Basis2`, from
the source): `from_angle (acos (a · b))`. -/
def Basis2.between_vectors (a b : Vector2) : Basis2 :=
  Basis2.from_angle (Real.arccos (a.dot b))

/-- Vector rotation (`Rotation::rotate_vector` for `Basis2`, from the
source): matrix–vector product. -/
def Basis2.rotate_vector (r : Basis2) (v : Vector2) : Vector2 := r.mat.mulVec v

/-- Point rotation: the trait's default implementation, inherited (not
overridden) by `Basis2` — convert to vector, rotate, convert back. -/
def Basis2.rotate_point (r : Basis2) (p : Point2) : Point2 :=
  Point2.from_vec (r.rotate_vector p.to_vec)

/-- Rotation composition (`Rotation::concat` for `Basis2`, from the
source): matrix–matrix product `self.mat * other.mat`. -/
def Basis2.concat (r other : Basis2) : Basis2 := ⟨r.mat.mul other.mat⟩

/-- In-place composition (`Rotation::concat_self` as overridden by
`Basis2` in the source): reassigns `self.mat` to `self.mat * other.mat`;
modelled as returning the new value of `self`. -/
def Basis2.concat_self (r other : Basis2) : Basis2 := ⟨r.mat.mul other.mat⟩

/-- Rotation inverse (`Rotation::invert` for `Basis2`, from the source):
the general matrix inverse, whose `None` is `unwrap`ped — a panic,
modelled as `none`. -/
def Basis2.invert (r : Basis2) : Option Basis2 :=
  Option.map Basis2.mk r.mat.invert

/-- In-place inverse (`Rotation::invert_self` as overridden by `Basis2` in
the source): delegates to the matrix collaborator's in-place inverse,
which replaces the matrix by its `invert` result (panicking on `None`);
modelled as returning the new value of `self`. -/
def Basis2.invert_self (r : Basis2) : Option Basis2 :=
  Option.map Basis2.mk r.mat.invert

/-- Default `concat_self` of the `Rotation` trait from the source:
`*self = Self::concat(self, other)`. -/
def Rotation.concat_self_default (r other : Basis2) : Basis2 := r.concat other

/-- Default `invert_self` of the `Rotation` trait from the source:
`*self = self.invert()`. -/
def Rotation.invert_self_default (r : Basis2) : Option Basis2 := r.invert

/-- Orthogonality invariant for `Basis2` from the spec: the columns of the
wrapped matrix are unit-length and mutually perpendicular, stated as
`matᵀ * mat = identity`. -/
def Basis2.Orthogonal (r : Basis2) : Prop :=
  r.mat.transpose.mul r.mat = Matrix2.identity

/-- Three-dimensional rotation type `Basis3` from the source: a wrapped
orthogonal 3×3 matrix. -/
@[ext]
structure Basis3 where
  mat : Matrix3

/-- Quaternion constructor (`Basis3::from_quaternion`, from the source):
converts the quaternion to its matrix form. -/
def Basis3.from_quaternion (q : Quaternion) : Basis3 := ⟨q.toMatrix3⟩

/-- Conversion `From<Basis3> for Quaternion` from the source: delegates to
the matrix collaborator's matrix-to-quaternion conversion. -/
def Basis3.toQuaternion (b : Basis3) : Quaternion := b.mat.toQuaternion

/-- Identity rotation (`Rotation::one` for `Basis3`, from the source). -/
def Basis3.one : Basis3 := ⟨Matrix3.identity⟩

/-- Look-at rotation (`Rotation::look_at` for `Basis3`, from the source):
delegates to the matrix collaborator. -/
def Basis3.look_at (dir up : Vector3) : Basis3 := ⟨Matrix3.look_at dir up⟩

/-- Shortest-arc rotation (`Rotation::between_vectors` for `Basis3`, from
the source): delegates to the quaternion representation's between-vectors
construction and converts the resulting quaternion to matrix form. -/
def Basis3.between_vectors (a b : Vector3) : Basis3 :=
  Basis3.from_quaternion (Quaternion.between_vectors a b)

/-- Vector rotation (`Rotation::rotate_vector` for `Basis3`, from the
source): matrix–vector product. -/
def Basis3.rotate_vector (r : Basis3) (v : Vector3) : Vector3 := r.mat.mulVec v

/-- Point rotation: the trait's default implementation, inherited (not
overridden) by `Basis3` — convert to vector, rotate, convert back. -/
def Basis3.rotate_point (r : Basis3) (p : Point3) : Point3 :=
  Point3.from_vec (r.rotate_vector p.to_vec)

/-- Rotation composition (`Rotation::concat` for `Basis3`, from the
source): matrix–matrix product `self.mat * other.mat`. -/
def Basis3.concat (r other : Basis3) : Basis3 := ⟨r.mat.mul other.mat⟩

/-- In-place composition (`Rotation::concat_self` as overridden by
`Basis3` in the source), modelled as returning the new value of `self`. -/
def Basis3.concat_self (r other : Basis3) : Basis3 := ⟨r.mat.mul other.mat⟩

/-- Rotation inverse (`Rotation::invert` for `Basis3`, from the source):
the general matrix inverse, whose `None` is `unwrap`ped — a panic,
modelled as `none`. -/
def Basis3.invert (r : Basis3) : Option Basis3 :=
  Option.map Basis3.mk r.mat.invert

/-- In-place inverse (`Rotation::invert_self` as overridden by `Basis3` in
the source), modelled as returning the new value of `self`. -/
def Basis3.invert_self (r : Basis3) : Option Basis3 :=
  Option.map Basis3.mk r.mat.invert

/-- Default `concat_self` of the `Rotation` trait from the source,
instantiated at `Basis3`. -/
def Rotation.concat_self_default3 (r other : Basis3) : Basis3 := r.concat other

/-- Default `invert_self` of the `Rotation` trait from the source,
instantiated at `Basis3`. -/
def Rotation.invert_self_default3 (r : Basis3) : Option Basis3 := r.invert

/-- Axis-angle rotation (`Rotation3::from_axis_angle` for `Basis3`, from
the source): delegates to the matrix collaborator. -/
def Basis3.from_axis_angle (axis : Vector3) (angle : ℝ) : Basis3 :=
  ⟨Matrix3.from_axis_angle axis angle⟩

/-- Euler-angle rotation (`Rotation3::from_euler` for `Basis3`, from the
source): delegates to the matrix collaborator. -/
def Basis3.from_euler (x y z : ℝ) : Basis3 := ⟨Matrix3.from_euler x y z⟩

/-- Single-axis rotation about x (`Rotation3::from_angle_x` as overridden
by `Basis3` in the source): delegates to the matrix collaborator. -/
def Basis3.from_angle_x (theta : ℝ) : Basis3 := ⟨Matrix3.from_angle_x theta⟩

/-- Single-axis rotation about y (`Rotation3::from_angle_y` as overridden
by `Basis3` in the source): delegates to the matrix collaborator. -/
def Basis3.from_angle_y (theta : ℝ) : Basis3 := ⟨Matrix3.from_angle_y theta⟩

/-- Single-axis rotation about z (`Rotation3::from_angle_z` as overridden
by `Basis3` in the source): delegates to the matrix collaborator. -/
def Basis3.from_angle_z (theta : ℝ) : Basis3 := ⟨Matrix3.from_angle_z theta⟩

/-- Default `from_angle_x` of the `Rotation3` trait from the source:
`from_axis_angle (unit_x, theta)`. -/
def Rotation3.from_angle_x_default (theta : ℝ) : Basis3 :=
  Basis3.from_axis_angle Vector3.unit_x theta

/-- Default `from_angle_y` of the `Rotation3` trait from the source:
`from_axis_angle (unit_y, theta)`. -/
def Rotation3.from_angle_y_default (theta : ℝ) : Basis3 :=
  Basis3.from_axis_angle Vector3.unit_y theta

/-- Default `from_angle_z` of the `Rotation3` trait from the source:
`from_axis_angle (unit_z, theta)`. -/
def Rotation3.from_angle_z_default (theta : ℝ) : Basis3 :=
  Basis3.from_axis_angle Vector3.unit_z theta

/-- Orthogonality invariant for `Basis3` from the spec: the columns of the
wrapped matrix are unit-length and mutually perpendicular, stated as
`matᵀ * mat = identity`. -/
def Basis3.Orthogonal (r : Basis3) : Prop :=
  r.mat.transpose.mul r.mat = Matrix3.identity

/-! Helper lemmas. -/

/-- Componentwise description of 3×3 matrix equality, used to split goals. -/
lemma Matrix3.ext_comp {a b : Matrix3}
    (h1 : a.x.x = b.x.x) (h2 : a.x.y = b.x.y) (h3 : a.x.z = b.x.z)
    (h4 : a.y.x = b.y.x) (h5 : a.y.y = b.y.y) (h6 : a.y.z = b.y.z)
    (h7 : a.z.x = b.z.x) (h8 : a.z.y = b.z.y) (h9 : a.z.z = b.z.z) :
    a = b := by
  ext <;> assumption

/-- Componentwise description of 2×2 matrix equality, used to split goals. -/
lemma Matrix2.ext_comp2 {a b : Matrix2}
    (h1 : a.x.x = b.x.x) (h2 : a.x.y = b.x.y)
    (h3 : a.y.x = b.y.x) (h4 : a.y.y = b.y.y) :
    a = b := by
  ext <;> assumption

/-- Matrix product on 2×2 matrices is associative. -/
lemma Matrix2.mul_assoc2 (a b c : Matrix2) :
    (a.mul b).mul c = a.mul (b.mul c) := by
  unfold Matrix2.mul Matrix2.mulVec
  exact Matrix2.ext_comp2 (by ring) (by ring) (by ring) (by ring)

/-- The identity matrix is a right unit for the 2×2 product. -/
lemma Matrix2.mul_identity2 (a : Matrix2) : a.mul Matrix2.identity = a := by
  unfold Matrix2.mul Matrix2.mulVec Matrix2.identity
  exact Matrix2.ext_comp2 (by ring) (by ring) (by ring) (by ring)

/-- The identity matrix is a left unit for the 2×2 product. -/
lemma Matrix2.identity_mul2 (a : Matrix2) : Matrix2.identity.mul a = a := by
  unfold Matrix2.mul Matrix2.mulVec Matrix2.identity
  exact Matrix2.ext_comp2 (by ring) (by ring) (by ring) (by ring)

/-- The 2×2 determinant is multiplicative. -/
lemma Matrix2.det_mul2 (a b : Matrix2) : (a.mul b).det = a.det * b.det := by
  unfold Matrix2.det Matrix2.mul Matrix2.mulVec
  ring

/-- Transposing a 2×2 matrix preserves the determinant. -/
lemma Matrix2.det_transpose2 (a : Matrix2) : a.transpose.det = a.det := by
  unfold Matrix2.det Matrix2.transpose
  ring

/-- An orthogonal 2×2 matrix has determinant squaring to one. -/
lemma Matrix2.orth_det_sq2 {m : Matrix2}
    (h : m.transpose.mul m = Matrix2.identity) : m.det ^ 2 = 1 := by
  have hd := congrArg Matrix2.det h
  rw [Matrix2.det_mul2, Matrix2.det_transpose2] at hd
  have hid : Matrix2.identity.det = 1 := by
    unfold Matrix2.det Matrix2.identity
    norm_num
  rw [hid] at hd
  nlinarith [hd]

/-- An orthogonal 2×2 matrix has nonzero determinant. -/
lemma Matrix2.orth_det_ne2 {m : Matrix2}
    (h : m.transpose.mul m = Matrix2.identity) : m.det ≠ 0 := by
  intro h0
  have := Matrix2.orth_det_sq2 h
  rw [h0] at this
  norm_num at this

/-- In the invertible case the 2×2 `invert` returns the adjugate over the
determinant. -/
lemma Matrix2.invert_eq_some2 {m : Matrix2} (h : m.det ≠ 0) :
    m.invert = some m.invMat := by
  unfold Matrix2.invert
  rw [if_neg h]

/-- The 2×2 `invert` reports failure exactly on vanishing determinant. -/
lemma Matrix2.invert_eq_none_iff2 (m : Matrix2) :
    m.invert = none ↔ m.det = 0 := by
  unfold Matrix2.invert
  split
  · simp [*]
  · simp [*]

/-- A 2×2 matrix with nonzero determinant times its inverse is the
identity. -/
lemma Matrix2.mul_invMat2 {m : Matrix2} (h : m.det ≠ 0) :
    m.mul m.invMat = Matrix2.identity := by
  have hd : m.x.x * m.y.y - m.y.x * m.x.y ≠ 0 := h
  unfold Matrix2.mul Matrix2.mulVec Matrix2.invMat Matrix2.identity Matrix2.det
  refine Matrix2.ext_comp2 ?_ ?_ ?_ ?_ <;> field_simp <;> ring

/-- The inverse of a 2×2 matrix with nonzero determinant times the matrix
is the identity. -/
lemma Matrix2.invMat_mul2 {m : Matrix2} (h : m.det ≠ 0) :
    m.invMat.mul m = Matrix2.identity := by
  have hd : m.x.x * m.y.y - m.y.x * m.x.y ≠ 0 := h
  unfold Matrix2.mul Matrix2.mulVec Matrix2.invMat Matrix2.identity Matrix2.det
  refine Matrix2.ext_comp2 ?_ ?_ ?_ ?_ <;> field_simp <;> ring

/-- For an orthogonal 2×2 matrix the transpose is the inverse. -/
lemma Matrix2.orth_transpose_eq_invMat2 {m : Matrix2}
    (h : m.transpose.mul m = Matrix2.identity) : m.transpose = m.invMat := by
  have hdet := Matrix2.orth_det_ne2 h
  calc m.transpose = m.transpose.mul Matrix2.identity :=
        (Matrix2.mul_identity2 _).symm
    _ = m.transpose.mul (m.mul m.invMat) := by rw [Matrix2.mul_invMat2 hdet]
    _ = (m.transpose.mul m).mul m.invMat := (Matrix2.mul_assoc2 _ _ _).symm
    _ = Matrix2.identity.mul m.invMat := by rw [h]
    _ = m.invMat := Matrix2.identity_mul2 _

/-- Column orthonormality of a 2×2 matrix implies row orthonormality. -/
lemma Matrix2.orth_flip2 {m : Matrix2}
    (h : m.transpose.mul m = Matrix2.identity) :
    m.mul m.transpose = Matrix2.identity := by
  rw [Matrix2.orth_transpose_eq_invMat2 h]
  exact Matrix2.mul_invMat2 (Matrix2.orth_det_ne2 h)

/-- Matrix product on 3×3 matrices is associative. -/
lemma Matrix3.mul_assoc (a b c : Matrix3) :
    (a.mul b).mul c = a.mul (b.mul c) := by
  unfold Matrix3.mul Matrix3.mulVec
  exact Matrix3.ext_comp (by ring) (by ring) (by ring) (by ring) (by ring)
    (by ring) (by ring) (by ring) (by ring)

/-- The identity matrix is a right unit for the 3×3 product. -/
lemma Matrix3.mul_identity (a : Matrix3) : a.mul Matrix3.identity = a := by
  unfold Matrix3.mul Matrix3.mulVec Matrix3.identity
  exact Matrix3.ext_comp (by ring) (by ring) (by ring) (by ring) (by ring)
    (by ring) (by ring) (by ring) (by ring)

/-- The identity matrix is a left unit for the 3×3 product. -/
lemma Matrix3.identity_mul (a : Matrix3) : Matrix3.identity.mul a = a := by
  unfold Matrix3.mul Matrix3.mulVec Matrix3.identity
  exact Matrix3.ext_comp (by ring) (by ring) (by ring) (by ring) (by ring)
    (by ring) (by ring) (by ring) (by ring)

/-- The 3×3 determinant is multiplicative. -/
lemma Matrix3.det_mul (a b : Matrix3) : (a.mul b).det = a.det * b.det := by
  unfold Matrix3.det Matrix3.mul Matrix3.mulVec
  ring

/-- Transposing a 3×3 matrix preserves the determinant. -/
lemma Matrix3.det_transpose (a : Matrix3) : a.transpose.det = a.det := by
  unfold Matrix3.det Matrix3.transpose
  ring

/-- An orthogonal 3×3 matrix has determinant squaring to one. -/
lemma Matrix3.orth_det_sq {m : Matrix3}
    (h : m.transpose.mul m = Matrix3.identity) : m.det ^ 2 = 1 := by
  have hd := congrArg Matrix3.det h
  rw [Matrix3.det_mul, Matrix3.det_transpose] at hd
  have hid : Matrix3.identity.det = 1 := by
    unfold Matrix3.det Matrix3.identity
    norm_num
  rw [hid] at hd
  nlinarith [hd]

/-- An orthogonal 3×3 matrix has nonzero determinant. -/
lemma Matrix3.orth_det_ne {m : Matrix3}
    (h : m.transpose.mul m = Matrix3.identity) : m.det ≠ 0 := by
  intro h0
  have := Matrix3.orth_det_sq h
  rw [h0] at this
  norm_num at this

/-- In the invertible case the 3×3 `invert` returns the adjugate over the
determinant. -/
lemma Matrix3.invert_eq_some {m : Matrix3} (h : m.det ≠ 0) :
    m.invert = some m.invMat := by
  unfold Matrix3.invert
  rw [if_neg h]

/-- The 3×3 `invert` reports failure exactly on vanishing determinant. -/
lemma Matrix3.invert_eq_none_iff (m : Matrix3) :
    m.invert = none ↔ m.det = 0 := by
  unfold Matrix3.invert
  split
  · simp [*]
  · simp [*]

/-- A 3×3 matrix with nonzero determinant times its inverse is the
identity. -/
lemma Matrix3.mul_invMat {m : Matrix3} (h : m.det ≠ 0) :
    m.mul m.invMat = Matrix3.identity := by
  have hd : m.x.x * (m.y.y * m.z.z - m.z.y * m.y.z)
      - m.y.x * (m.x.y * m.z.z - m.z.y * m.x.z)
      + m.z.x * (m.x.y * m.y.z - m.y.y * m.x.z) ≠ 0 := h
  unfold Matrix3.mul Matrix3.mulVec Matrix3.invMat Matrix3.identity
    Matrix3.det Matrix3.smul Matrix3.transpose Vector3.cross
  refine Matrix3.ext_comp ?_ ?_ ?_ ?_ ?_ ?_ ?_ ?_ ?_ <;> field_simp <;> ring

/-- The inverse of a 3×3 matrix with nonzero determinant times the matrix
is the identity. -/
lemma Matrix3.invMat_mul {m : Matrix3} (h : m.det ≠ 0) :
    m.invMat.mul m = Matrix3.identity := by
  have hd : m.x.x * (m.y.y * m.z.z - m.z.y * m.y.z)
      - m.y.x * (m.x.y * m.z.z - m.z.y * m.x.z)
      + m.z.x * (m.x.y * m.y.z - m.y.y * m.x.z) ≠ 0 := h
  unfold Matrix3.mul Matrix3.mulVec Matrix3.invMat Matrix3.identity
    Matrix3.det Matrix3.smul Matrix3.transpose Vector3.cross
  refine Matrix3.ext_comp ?_ ?_ ?_ ?_ ?_ ?_ ?_ ?_ ?_ <;> field_simp <;> ring

/-- For an orthogonal 3×3 matrix the transpose is the inverse. -/
lemma Matrix3.orth_transpose_eq_invMat {m : Matrix3}
    (h : m.transpose.mul m = Matrix3.identity) : m.transpose = m.invMat := by
  have hdet := Matrix3.orth_det_ne h
  calc m.transpose = m.transpose.mul Matrix3.identity :=
        (Matrix3.mul_identity _).symm
    _ = m.transpose.mul (m.mul m.invMat) := by rw [Matrix3.mul_invMat hdet]
    _ = (m.transpose.mul m).mul m.invMat := (Matrix3.mul_assoc _ _ _).symm
    _ = Matrix3.identity.mul m.invMat := by rw [h]
    _ = m.invMat := Matrix3.identity_mul _

/-- Column orthonormality of a 3×3 matrix implies row orthonormality. -/
lemma Matrix3.orth_flip {m : Matrix3}
    (h : m.transpose.mul m = Matrix3.identity) :
    m.mul m.transpose = Matrix3.identity := by
  rw [Matrix3.orth_transpose_eq_invMat h]
  exact Matrix3.mul_invMat (Matrix3.orth_det_ne h)

/-- Transposition reverses 2×2 matrix products. -/
lemma Matrix2.transpose_mul2 (a b : Matrix2) :
    (a.mul b).transpose = b.transpose.mul a.transpose := by
  unfold Matrix2.transpose Matrix2.mul Matrix2.mulVec
  exact Matrix2.ext_comp2 (by ring) (by ring) (by ring) (by ring)

/-- Transposition on 2×2 matrices is an involution. -/
lemma Matrix2.transpose_transpose2 (a : Matrix2) :
    a.transpose.transpose = a := rfl

/-- Orthogonality is closed under the 2×2 matrix product. -/
lemma Matrix2.orth_mul2 {a b : Matrix2}
    (ha : a.transpose.mul a = Matrix2.identity)
    (hb : b.transpose.mul b = Matrix2.identity) :
    (a.mul b).transpose.mul (a.mul b) = Matrix2.identity := by
  rw [Matrix2.transpose_mul2]
  calc (b.transpose.mul a.transpose).mul (a.mul b)
      = b.transpose.mul ((a.transpose.mul a).mul b) := by
        rw [Matrix2.mul_assoc2, Matrix2.mul_assoc2]
    _ = b.transpose.mul b := by rw [ha, Matrix2.identity_mul2]
    _ = Matrix2.identity := hb

/-- Orthogonality is closed under the 2×2 inverse. -/
lemma Matrix2.orth_invMat2 {m : Matrix2}
    (h : m.transpose.mul m = Matrix2.identity) :
    m.invMat.transpose.mul m.invMat = Matrix2.identity := by
  rw [← Matrix2.orth_transpose_eq_invMat2 h, Matrix2.transpose_transpose2]
  exact Matrix2.orth_flip2 h

/-- Transposition reverses 3×3 matrix products. -/
lemma Matrix3.transpose_mul (a b : Matrix3) :
    (a.mul b).transpose = b.transpose.mul a.transpose := by
  unfold Matrix3.transpose Matrix3.mul Matrix3.mulVec
  exact Matrix3.ext_comp (by ring) (by ring) (by ring) (by ring) (by ring)
    (by ring) (by ring) (by ring) (by ring)

/-- Transposition on 3×3 matrices is an involution. -/
lemma Matrix3.transpose_transpose (a : Matrix3) :
    a.transpose.transpose = a := rfl

/-- Orthogonality is closed under the 3×3 matrix product. -/
lemma Matrix3.orth_mul {a b : Matrix3}
    (ha : a.transpose.mul a = Matrix3.identity)
    (hb : b.transpose.mul b = Matrix3.identity) :
    (a.mul b).transpose.mul (a.mul b) = Matrix3.identity := by
  rw [Matrix3.transpose_mul]
  calc (b.transpose.mul a.transpose).mul (a.mul b)
      = b.transpose.mul ((a.transpose.mul a).mul b) := by
        rw [Matrix3.mul_assoc, Matrix3.mul_assoc]
    _ = b.transpose.mul b := by rw [ha, Matrix3.identity_mul]
    _ = Matrix3.identity := hb

/-- Orthogonality is closed under the 3×3 inverse. -/
lemma Matrix3.orth_invMat {m : Matrix3}
    (h : m.transpose.mul m = Matrix3.identity) :
    m.invMat.transpose.mul m.invMat = Matrix3.identity := by
  rw [← Matrix3.orth_transpose_eq_invMat h, Matrix3.transpose_transpose]
  exact Matrix3.orth_flip h

/-- The 2D rotation matrix of any angle is orthogonal. -/
lemma Matrix2.from_angle_orth (theta : ℝ) :
    (Matrix2.from_angle theta).transpose.mul (Matrix2.from_angle theta) =
      Matrix2.identity := by
  unfold Matrix2.from_angle Matrix2.transpose Matrix2.mul Matrix2.mulVec
    Matrix2.identity
  refine Matrix2.ext_comp2 ?_ ?_ ?_ ?_
  · linear_combination Real.sin_sq_add_cos_sq theta
  · ring
  · ring
  · linear_combination Real.sin_sq_add_cos_sq theta

/-- The 3×3 rotation matrix about the x axis is orthogonal. -/
lemma Matrix3.from_angle_x_orth (theta : ℝ) :
    (Matrix3.from_angle_x theta).transpose.mul (Matrix3.from_angle_x theta) =
      Matrix3.identity := by
  unfold Matrix3.from_angle_x Matrix3.transpose Matrix3.mul Matrix3.mulVec
    Matrix3.identity
  refine Matrix3.ext_comp ?_ ?_ ?_ ?_ ?_ ?_ ?_ ?_ ?_ <;>
    first
      | ring1
      | linear_combination Real.sin_sq_add_cos_sq theta

/-- The 3×3 rotation matrix about the y axis is orthogonal. -/
lemma Matrix3.from_angle_y_orth (theta : ℝ) :
    (Matrix3.from_angle_y theta).transpose.mul (Matrix3.from_angle_y theta) =
      Matrix3.identity := by
  unfold Matrix3.from_angle_y Matrix3.transpose Matrix3.mul Matrix3.mulVec
    Matrix3.identity
  refine Matrix3.ext_comp ?_ ?_ ?_ ?_ ?_ ?_ ?_ ?_ ?_ <;>
    first
      | ring1
      | linear_combination Real.sin_sq_add_cos_sq theta

/-- The 3×3 rotation matrix about the z axis is orthogonal. -/
lemma Matrix3.from_angle_z_orth (theta : ℝ) :
    (Matrix3.from_angle_z theta).transpose.mul (Matrix3.from_angle_z theta) =
      Matrix3.identity := by
  unfold Matrix3.from_angle_z Matrix3.transpose Matrix3.mul Matrix3.mulVec
    Matrix3.identity
  refine Matrix3.ext_comp ?_ ?_ ?_ ?_ ?_ ?_ ?_ ?_ ?_ <;>
    first
      | ring1
      | linear_combination Real.sin_sq_add_cos_sq theta

/-- The axis-angle rotation matrix is orthogonal whenever the axis has
unit length. -/
lemma Matrix3.from_axis_angle_orth {axis : Vector3} (angle : ℝ)
    (haxis : axis.x ^ 2 + axis.y ^ 2 + axis.z ^ 2 = 1) :
    (Matrix3.from_axis_angle axis angle).transpose.mul
      (Matrix3.from_axis_angle axis angle) = Matrix3.identity := by
  have hsc := Real.sin_sq_add_cos_sq angle
  unfold Matrix3.from_axis_angle Matrix3.transpose Matrix3.mul Matrix3.mulVec
    Matrix3.identity
  refine Matrix3.ext_comp ?_ ?_ ?_ ?_ ?_ ?_ ?_ ?_ ?_
  · linear_combination ((1 - Real.cos angle) ^ 2 * axis.x ^ 2 +
      Real.sin angle ^ 2) * haxis + (1 - axis.x ^ 2) * hsc
  · linear_combination ((1 - Real.cos angle) ^ 2 * axis.x * axis.y) * haxis +
      (-(axis.x * axis.y)) * hsc
  · linear_combination ((1 - Real.cos angle) ^ 2 * axis.x * axis.z) * haxis +
      (-(axis.x * axis.z)) * hsc
  · linear_combination ((1 - Real.cos angle) ^ 2 * axis.x * axis.y) * haxis +
      (-(axis.x * axis.y)) * hsc
  · linear_combination ((1 - Real.cos angle) ^ 2 * axis.y ^ 2 +
      Real.sin angle ^ 2) * haxis + (1 - axis.y ^ 2) * hsc
  · linear_combination ((1 - Real.cos angle) ^ 2 * axis.y * axis.z) * haxis +
      (-(axis.y * axis.z)) * hsc
  · linear_combination ((1 - Real.cos angle) ^ 2 * axis.x * axis.z) * haxis +
      (-(axis.x * axis.z)) * hsc
  · linear_combination ((1 - Real.cos angle) ^ 2 * axis.y * axis.z) * haxis +
      (-(axis.y * axis.z)) * hsc
  · linear_combination ((1 - Real.cos angle) ^ 2 * axis.z ^ 2 +
      Real.sin angle ^ 2) * haxis + (1 - axis.z ^ 2) * hsc

/-- The matrix of a unit quaternion is orthogonal. -/
lemma Quaternion.toMatrix3_orth {q : Quaternion} (hq : q.magnitude2 = 1) :
    q.toMatrix3.transpose.mul q.toMatrix3 = Matrix3.identity := by
  have h : q.s ^ 2 + q.v.x ^ 2 + q.v.y ^ 2 + q.v.z ^ 2 = 1 := by
    unfold Quaternion.magnitude2 Vector3.magnitude2 Vector3.dot at hq
    linear_combination hq
  unfold Quaternion.toMatrix3 Matrix3.transpose Matrix3.mul Matrix3.mulVec
    Matrix3.identity
  refine Matrix3.ext_comp ?_ ?_ ?_ ?_ ?_ ?_ ?_ ?_ ?_
  · linear_combination (4 * (q.v.y ^ 2 + q.v.z ^ 2)) * h
  · linear_combination (-4 * (q.v.x * q.v.y)) * h
  · linear_combination (-4 * (q.v.x * q.v.z)) * h
  · linear_combination (-4 * (q.v.x * q.v.y)) * h
  · linear_combination (4 * (q.v.x ^ 2 + q.v.z ^ 2)) * h
  · linear_combination (-4 * (q.v.y * q.v.z)) * h
  · linear_combination (-4 * (q.v.x * q.v.z)) * h
  · linear_combination (-4 * (q.v.y * q.v.z)) * h
  · linear_combination (4 * (q.v.x ^ 2 + q.v.y ^ 2)) * h

/-- For a rotation matrix (orthogonal with determinant one) each entry
equals its cofactor: the columns are the cross products of the other two
columns. -/
lemma Matrix3.rotation_adjugate {m : Matrix3}
    (h : m.transpose.mul m = Matrix3.identity) (hdet : m.det = 1) :
    m = Matrix3.mk (m.y.cross m.z) (m.z.cross m.x) (m.x.cross m.y) := by
  have ht := Matrix3.orth_transpose_eq_invMat h
  have hi : m.invMat =
      Matrix3.transpose ⟨m.y.cross m.z, m.z.cross m.x, m.x.cross m.y⟩ := by
    unfold Matrix3.invMat
    rw [hdet]
    unfold Matrix3.smul Matrix3.transpose
    exact Matrix3.ext_comp (by norm_num) (by norm_num) (by norm_num)
      (by norm_num) (by norm_num) (by norm_num) (by norm_num) (by norm_num)
      (by norm_num)
  rw [hi] at ht
  have h2 := congrArg Matrix3.transpose ht
  rw [Matrix3.transpose_transpose, Matrix3.transpose_transpose] at h2
  exact h2

/-- The matrix of the trace-branch extracted quaternion (scalar slot
`c/2`, vector parts divided by `2c`), written over the common denominator
`2c²`. -/
lemma Quaternion.toMatrix3_w_slot (c u v w : ℝ) (hc : c ≠ 0) :
    Quaternion.toMatrix3
      ⟨(1 / 2) * c, ⟨u * ((1 / 2) / c), v * ((1 / 2) / c), w * ((1 / 2) / c)⟩⟩ =
    ⟨⟨(2 * (c * c) - v * v - w * w) / (2 * (c * c)),
      (u * v + c * c * w) / (2 * (c * c)),
      (u * w - c * c * v) / (2 * (c * c))⟩,
     ⟨(u * v - c * c * w) / (2 * (c * c)),
      (2 * (c * c) - u * u - w * w) / (2 * (c * c)),
      (v * w + c * c * u) / (2 * (c * c))⟩,
     ⟨(u * w + c * c * v) / (2 * (c * c)),
      (v * w - c * c * u) / (2 * (c * c)),
      (2 * (c * c) - u * u - v * v) / (2 * (c * c))⟩⟩ := by
  unfold Quaternion.toMatrix3
  refine Matrix3.ext_comp ?_ ?_ ?_ ?_ ?_ ?_ ?_ ?_ ?_ <;> dsimp <;>
    (field_simp; ring)

/-- The matrix of the x-dominant-branch extracted quaternion, written over
the common denominator `2c²`. -/
lemma Quaternion.toMatrix3_x_slot (c u v w : ℝ) (hc : c ≠ 0) :
    Quaternion.toMatrix3
      ⟨u * ((1 / 2) / c), ⟨(1 / 2) * c, v * ((1 / 2) / c), w * ((1 / 2) / c)⟩⟩ =
    ⟨⟨(2 * (c * c) - v * v - w * w) / (2 * (c * c)),
      (c * c * v + u * w) / (2 * (c * c)),
      (c * c * w - u * v) / (2 * (c * c))⟩,
     ⟨(c * c * v - u * w) / (2 * (c * c)),
      (2 * (c * c) - c * c * (c * c) - w * w) / (2 * (c * c)),
      (v * w + c * c * u) / (2 * (c * c))⟩,
     ⟨(c * c * w + u * v) / (2 * (c * c)),
      (v * w - c * c * u) / (2 * (c * c)),
      (2 * (c * c) - c * c * (c * c) - v * v) / (2 * (c * c))⟩⟩ := by
  unfold Quaternion.toMatrix3
  refine Matrix3.ext_comp ?_ ?_ ?_ ?_ ?_ ?_ ?_ ?_ ?_ <;> dsimp <;>
    (field_simp; ring)

/-- The matrix of the y-dominant-branch extracted quaternion, written over
the common denominator `2c²`. -/
lemma Quaternion.toMatrix3_y_slot (c u v w : ℝ) (hc : c ≠ 0) :
    Quaternion.toMatrix3
      ⟨u * ((1 / 2) / c), ⟨v * ((1 / 2) / c), (1 / 2) * c, w * ((1 / 2) / c)⟩⟩ =
    ⟨⟨(2 * (c * c) - c * c * (c * c) - w * w) / (2 * (c * c)),
      (c * c * v + u * w) / (2 * (c * c)),
      (v * w - c * c * u) / (2 * (c * c))⟩,
     ⟨(c * c * v - u * w) / (2 * (c * c)),
      (2 * (c * c) - v * v - w * w) / (2 * (c * c)),
      (c * c * w + u * v) / (2 * (c * c))⟩,
     ⟨(v * w + c * c * u) / (2 * (c * c)),
      (c * c * w - u * v) / (2 * (c * c)),
      (2 * (c * c) - v * v - c * c * (c * c)) / (2 * (c * c))⟩⟩ := by
  unfold Quaternion.toMatrix3
  refine Matrix3.ext_comp ?_ ?_ ?_ ?_ ?_ ?_ ?_ ?_ ?_ <;> dsimp <;>
    (field_simp; ring)

/-- The matrix of the z-dominant-branch extracted quaternion, written over
the common denominator `2c²`. -/
lemma Quaternion.toMatrix3_z_slot (c u v w : ℝ) (hc : c ≠ 0) :
    Quaternion.toMatrix3
      ⟨u * ((1 / 2) / c), ⟨v * ((1 / 2) / c), w * ((1 / 2) / c), (1 / 2) * c⟩⟩ =
    ⟨⟨(2 * (c * c) - w * w - c * c * (c * c)) / (2 * (c * c)),
      (v * w + c * c * u) / (2 * (c * c)),
      (c * c * v - u * w) / (2 * (c * c))⟩,
     ⟨(v * w - c * c * u) / (2 * (c * c)),
      (2 * (c * c) - v * v - c * c * (c * c)) / (2 * (c * c)),
      (c * c * w + u * v) / (2 * (c * c))⟩,
     ⟨(c * c * v + u * w) / (2 * (c * c)),
      (c * c * w - u * v) / (2 * (c * c)),
      (2 * (c * c) - v * v - w * w) / (2 * (c * c))⟩⟩ := by
  unfold Quaternion.toMatrix3
  refine Matrix3.ext_comp ?_ ?_ ?_ ?_ ?_ ?_ ?_ ?_ ?_ <;> dsimp <;>
    (field_simp; ring)

/-- A nonzero 2D vector has positive squared magnitude. -/
lemma Vector2.mag_pos2 {a : Vector2} (h : a ≠ ⟨0, 0⟩) : 0 < a.magnitude2 := by
  have hx : a.x ≠ 0 ∨ a.y ≠ 0 := by
    by_contra hc
    push_neg at hc
    exact h (Vector2.ext hc.1 hc.2)
  unfold Vector2.magnitude2 Vector2.dot
  rcases hx with hx | hy
  · nlinarith [mul_self_pos.mpr hx, mul_self_nonneg a.y]
  · nlinarith [mul_self_pos.mpr hy, mul_self_nonneg a.x]

/-- Normalizing a nonzero 2D vector yields a unit vector. -/
lemma Vector2.normalize_norm2 {a : Vector2} (h : a ≠ ⟨0, 0⟩) :
    a.normalize.x * a.normalize.x + a.normalize.y * a.normalize.y = 1 := by
  have hp := Vector2.mag_pos2 h
  have hs : Real.sqrt a.magnitude2 ≠ 0 := ne_of_gt (Real.sqrt_pos.mpr hp)
  have hss : Real.sqrt a.magnitude2 * Real.sqrt a.magnitude2 = a.magnitude2 :=
    Real.mul_self_sqrt (le_of_lt hp)
  unfold Vector2.normalize
  have hm : a.magnitude2 = a.x * a.x + a.y * a.y := rfl
  field_simp
  nlinarith [hss, hm]

/-- The 2D look-at matrix is orthogonal for a nonzero direction. -/
lemma Matrix2.look_at_orth2 {dir up : Vector2} (h : dir ≠ ⟨0, 0⟩) :
    (Matrix2.look_at dir up).transpose.mul (Matrix2.look_at dir up) =
      Matrix2.identity := by
  have hn := Vector2.normalize_norm2 h
  unfold Matrix2.look_at
  split_ifs <;>
  · unfold Matrix2.transpose Matrix2.mul Matrix2.mulVec Matrix2.identity
    refine Matrix2.ext_comp2 ?_ ?_ ?_ ?_ <;>
      first
        | ring1
        | linear_combination hn

/-- A nonzero 3D vector has positive squared magnitude. -/
lemma Vector3.mag_pos {a : Vector3} (h : a ≠ ⟨0, 0, 0⟩) : 0 < a.magnitude2 := by
  have hx : a.x ≠ 0 ∨ a.y ≠ 0 ∨ a.z ≠ 0 := by
    by_contra hc
    push_neg at hc
    exact h (Vector3.ext hc.1 hc.2.1 hc.2.2)
  unfold Vector3.magnitude2 Vector3.dot
  rcases hx with hx | hy | hz
  · nlinarith [mul_self_pos.mpr hx, mul_self_nonneg a.y, mul_self_nonneg a.z]
  · nlinarith [mul_self_pos.mpr hy, mul_self_nonneg a.x, mul_self_nonneg a.z]
  · nlinarith [mul_self_pos.mpr hz, mul_self_nonneg a.x, mul_self_nonneg a.y]

/-- A 3D vector with vanishing squared magnitude is the zero vector. -/
lemma Vector3.mag_zero {a : Vector3} (h : a.magnitude2 = 0) : a = ⟨0, 0, 0⟩ := by
  unfold Vector3.magnitude2 Vector3.dot at h
  refine Vector3.ext ?_ ?_ ?_ <;> dsimp <;>
    nlinarith [mul_self_nonneg a.x, mul_self_nonneg a.y, mul_self_nonneg a.z]

/-- Normalizing a nonzero 3D vector yields a unit vector. -/
lemma Vector3.normalize_norm {a : Vector3} (h : a ≠ ⟨0, 0, 0⟩) :
    a.normalize.x * a.normalize.x + a.normalize.y * a.normalize.y +
      a.normalize.z * a.normalize.z = 1 := by
  have hp := Vector3.mag_pos h
  have hs : Real.sqrt a.magnitude2 ≠ 0 := ne_of_gt (Real.sqrt_pos.mpr hp)
  have hss : Real.sqrt a.magnitude2 * Real.sqrt a.magnitude2 = a.magnitude2 :=
    Real.mul_self_sqrt (le_of_lt hp)
  unfold Vector3.normalize
  have hm : a.magnitude2 = a.x * a.x + a.y * a.y + a.z * a.z := rfl
  field_simp
  nlinarith [hss, hm]

/-- The dot product of a normalized vector with another vector is the
original dot product divided by the square root of the magnitude. -/
lemma Vector3.normalize_dot (a w : Vector3) :
    a.normalize.x * w.x + a.normalize.y * w.y + a.normalize.z * w.z =
      (a.x * w.x + a.y * w.y + a.z * w.z) / Real.sqrt a.magnitude2 := by
  unfold Vector3.normalize
  ring

/-- A 3×3 matrix whose columns are orthonormal is orthogonal. -/
lemma Matrix3.cols_orth {r0 r1 r2 : Vector3}
    (h00 : r0.dot r0 = 1) (h11 : r1.dot r1 = 1) (h22 : r2.dot r2 = 1)
    (h01 : r0.dot r1 = 0) (h02 : r0.dot r2 = 0) (h12 : r1.dot r2 = 0) :
    (Matrix3.mk r0 r1 r2).transpose.mul (Matrix3.mk r0 r1 r2) =
      Matrix3.identity := by
  unfold Vector3.dot at h00 h11 h22 h01 h02 h12
  unfold Matrix3.transpose Matrix3.mul Matrix3.mulVec Matrix3.identity
  refine Matrix3.ext_comp ?_ ?_ ?_ ?_ ?_ ?_ ?_ ?_ ?_ <;>
    first
      | linear_combination h00
      | linear_combination h11
      | linear_combination h22
      | linear_combination h01
      | linear_combination h02
      | linear_combination h12

/-- The 3D look-at matrix is orthogonal when `dir` and `up` are nonzero
and non-parallel (nonzero cross product). -/
lemma Matrix3.look_at_orth {dir up : Vector3} (h : up.cross dir ≠ ⟨0, 0, 0⟩) :
    (Matrix3.look_at dir up).transpose.mul (Matrix3.look_at dir up) =
      Matrix3.identity := by
  have hdir : dir ≠ ⟨0, 0, 0⟩ := by
    intro hd
    apply h
    rw [hd]
    unfold Vector3.cross
    exact Vector3.ext (by dsimp; ring) (by dsimp; ring) (by dsimp; ring)
  have hsqrt : Real.sqrt dir.magnitude2 ≠ 0 :=
    ne_of_gt (Real.sqrt_pos.mpr (Vector3.mag_pos hdir))
  have hs0 : up.cross dir.normalize ≠ ⟨0, 0, 0⟩ := by
    intro h0
    apply h
    have hx := congrArg Vector3.x h0
    have hy := congrArg Vector3.y h0
    have hz := congrArg Vector3.z h0
    unfold Vector3.cross Vector3.normalize at hx hy hz
    dsimp at hx hy hz
    field_simp at hx hy hz
    refine Vector3.ext ?_ ?_ ?_ <;> unfold Vector3.cross <;> dsimp
    · linarith [hx]
    · linarith [hy]
    · linarith [hz]
  have hd_unit : dir.normalize.dot dir.normalize = 1 := by
    unfold Vector3.dot
    exact Vector3.normalize_norm hdir
  have hside_unit : ((up.cross dir.normalize).normalize).dot
      ((up.cross dir.normalize).normalize) = 1 := by
    unfold Vector3.dot
    exact Vector3.normalize_norm hs0
  have hs0d : (up.cross dir.normalize).x * dir.normalize.x +
      (up.cross dir.normalize).y * dir.normalize.y +
      (up.cross dir.normalize).z * dir.normalize.z = 0 := by
    unfold Vector3.cross
    dsimp
    ring
  have hside_d : ((up.cross dir.normalize).normalize).dot dir.normalize = 0 := by
    unfold Vector3.dot
    rw [Vector3.normalize_dot, hs0d, zero_div]
  have hlagrange : (dir.normalize.cross
      ((up.cross dir.normalize).normalize)).magnitude2 =
      (dir.normalize.dot dir.normalize) *
        (((up.cross dir.normalize).normalize).dot
          ((up.cross dir.normalize).normalize)) -
      (dir.normalize.dot ((up.cross dir.normalize).normalize)) ^ 2 := by
    unfold Vector3.magnitude2 Vector3.dot Vector3.cross
    dsimp
    ring
  have hds : dir.normalize.dot ((up.cross dir.normalize).normalize) = 0 := by
    unfold Vector3.dot
    unfold Vector3.dot at hside_d
    linarith [hside_d]
  have ht0mag : (dir.normalize.cross
      ((up.cross dir.normalize).normalize)).magnitude2 = 1 := by
    rw [hlagrange, hd_unit, hside_unit, hds]
    norm_num
  have ht0 : dir.normalize.cross ((up.cross dir.normalize).normalize) ≠
      ⟨0, 0, 0⟩ := by
    intro h0
    rw [h0] at ht0mag
    unfold Vector3.magnitude2 Vector3.dot at ht0mag
    norm_num at ht0mag
  have hup_unit : ((dir.normalize.cross
      ((up.cross dir.normalize).normalize)).normalize).dot
      ((dir.normalize.cross
        ((up.cross dir.normalize).normalize)).normalize) = 1 := by
    unfold Vector3.dot
    exact Vector3.normalize_norm ht0
  have ht0d : (dir.normalize.cross ((up.cross dir.normalize).normalize)).x *
        dir.normalize.x +
      (dir.normalize.cross ((up.cross dir.normalize).normalize)).y *
        dir.normalize.y +
      (dir.normalize.cross ((up.cross dir.normalize).normalize)).z *
        dir.normalize.z = 0 := by
    unfold Vector3.cross
    dsimp
    ring
  have hup_d : ((dir.normalize.cross
      ((up.cross dir.normalize).normalize)).normalize).dot dir.normalize = 0 := by
    unfold Vector3.dot
    rw [Vector3.normalize_dot, ht0d, zero_div]
  have ht0s : (dir.normalize.cross ((up.cross dir.normalize).normalize)).x *
        ((up.cross dir.normalize).normalize).x +
      (dir.normalize.cross ((up.cross dir.normalize).normalize)).y *
        ((up.cross dir.normalize).normalize).y +
      (dir.normalize.cross ((up.cross dir.normalize).normalize)).z *
        ((up.cross dir.normalize).normalize).z = 0 := by
    unfold Vector3.cross
    dsimp
    ring
  have hup_s : ((dir.normalize.cross
      ((up.cross dir.normalize).normalize)).normalize).dot
      ((up.cross dir.normalize).normalize) = 0 := by
    unfold Vector3.dot
    rw [Vector3.normalize_dot, ht0s, zero_div]
  have hcols := Matrix3.cols_orth hside_unit hup_unit hd_unit
    (by unfold Vector3.dot; unfold Vector3.dot at hup_s; linarith [hup_s])
    (by unfold Vector3.dot; unfold Vector3.dot at hside_d; linarith [hside_d])
    (by unfold Vector3.dot; unfold Vector3.dot at hup_d; linarith [hup_d])
  unfold Matrix3.look_at
  rw [Matrix3.transpose_transpose]
  exact Matrix3.orth_flip hcols

/-- Normalizing a quaternion of positive squared magnitude yields a unit
quaternion. -/
lemma Quaternion.normalize_mag {q : Quaternion} (h : 0 < q.magnitude2) :
    q.normalize.magnitude2 = 1 := by
  have hs : Real.sqrt q.magnitude2 ≠ 0 := ne_of_gt (Real.sqrt_pos.mpr h)
  have hss : Real.sqrt q.magnitude2 * Real.sqrt q.magnitude2 = q.magnitude2 :=
    Real.mul_self_sqrt (le_of_lt h)
  have hm : q.magnitude2 = q.s * q.s +
      (q.v.x * q.v.x + q.v.y * q.v.y + q.v.z * q.v.z) := rfl
  show (q.s / Real.sqrt q.magnitude2) * (q.s / Real.sqrt q.magnitude2) +
    ((q.v.x / Real.sqrt q.magnitude2) * (q.v.x / Real.sqrt q.magnitude2) +
     (q.v.y / Real.sqrt q.magnitude2) * (q.v.y / Real.sqrt q.magnitude2) +
     (q.v.z / Real.sqrt q.magnitude2) * (q.v.z / Real.sqrt q.magnitude2)) = 1
  field_simp
  nlinarith [hss, hm]

/-- The fallback perpendicular axis of the shortest-arc construction has
unit length whenever the input is a unit vector. -/
lemma Vector3.perp_unit_mag {a : Vector3} (ha : a.magnitude2 = 1) :
    a.perp_unit.magnitude2 = 1 := by
  unfold Vector3.perp_unit
  split_ifs with hc
  · have hy : a.y = 0 := by
      have h1 := congrArg Vector3.z hc
      unfold Vector3.cross Vector3.unit_x at h1
      dsimp at h1
      linarith [h1]
    have hz : a.z = 0 := by
      have h1 := congrArg Vector3.y hc
      unfold Vector3.cross Vector3.unit_x at h1
      dsimp at h1
      linarith [h1]
    have hx : a.x ≠ 0 := by
      intro h0
      unfold Vector3.magnitude2 Vector3.dot at ha
      rw [h0, hy, hz] at ha
      norm_num at ha
    have hne : Vector3.unit_y.cross a ≠ ⟨0, 0, 0⟩ := by
      intro h0
      apply hx
      have h1 := congrArg Vector3.z h0
      unfold Vector3.cross Vector3.unit_y at h1
      dsimp at h1
      linarith [h1]
    unfold Vector3.magnitude2 Vector3.dot
    exact Vector3.normalize_norm hne
  · unfold Vector3.magnitude2 Vector3.dot
    exact Vector3.normalize_norm hc

/-- The fallback perpendicular axis of the shortest-arc construction is
perpendicular to the input vector. -/
lemma Vector3.perp_unit_dot (a : Vector3) :
    a.perp_unit.x * a.x + a.perp_unit.y * a.y + a.perp_unit.z * a.z = 0 := by
  unfold Vector3.perp_unit
  split_ifs with hc
  · rw [Vector3.normalize_dot]
    have h0 : (Vector3.unit_y.cross a).x * a.x + (Vector3.unit_y.cross a).y * a.y +
        (Vector3.unit_y.cross a).z * a.z = 0 := by
      unfold Vector3.cross Vector3.unit_y
      dsimp
      ring
    rw [h0, zero_div]
  · rw [Vector3.normalize_dot]
    have h0 : (Vector3.unit_x.cross a).x * a.x + (Vector3.unit_x.cross a).y * a.y +
        (Vector3.unit_x.cross a).z * a.z = 0 := by
      unfold Vector3.cross Vector3.unit_x
      dsimp
      ring
    rw [h0, zero_div]

/-- The between-vectors rotation of `Basis3` satisfies the orthogonality
invariant for unit inputs. -/
lemma Basis3.between_vectors_orth {a b : Vector3}
    (ha : a.magnitude2 = 1) (_hb : b.magnitude2 = 1) :
    (Basis3.between_vectors a b).Orthogonal := by
  unfold Basis3.Orthogonal Basis3.between_vectors Basis3.from_quaternion
  dsimp
  apply Quaternion.toMatrix3_orth
  unfold Quaternion.between_vectors Quaternion.from_arc
  split_ifs with hd
  · unfold Quaternion.magnitude2
    dsimp
    rw [Vector3.perp_unit_mag ha]
    norm_num
  · apply Quaternion.normalize_mag
    have h1 : 0 < (1 + a.dot b) * (1 + a.dot b) := mul_self_pos.mpr hd
    have h2 : 0 ≤ (a.cross b).magnitude2 := by
      unfold Vector3.magnitude2 Vector3.dot
      nlinarith [mul_self_nonneg (a.cross b).x, mul_self_nonneg (a.cross b).y,
        mul_self_nonneg (a.cross b).z]
    unfold Quaternion.magnitude2
    dsimp
    linarith [h1, h2]

/-- The specialized `from_angle_x` of `Basis3` agrees with the trait's
default axis-angle implementation. -/
lemma from_angle_x_eq_default (theta : ℝ) :
    Basis3.from_angle_x theta = Rotation3.from_angle_x_default theta := by
  unfold Rotation3.from_angle_x_default Basis3.from_angle_x Basis3.from_axis_angle
  refine congrArg Basis3.mk ?_
  unfold Matrix3.from_angle_x Matrix3.from_axis_angle Vector3.unit_x
  exact Matrix3.ext_comp (by ring) (by ring) (by ring) (by ring) (by ring)
    (by ring) (by ring) (by ring) (by ring)

/-- The specialized `from_angle_y` of `Basis3` agrees with the trait's
default axis-angle implementation. -/
lemma from_angle_y_eq_default (theta : ℝ) :
    Basis3.from_angle_y theta = Rotation3.from_angle_y_default theta := by
  unfold Rotation3.from_angle_y_default Basis3.from_angle_y Basis3.from_axis_angle
  refine congrArg Basis3.mk ?_
  unfold Matrix3.from_angle_y Matrix3.from_axis_angle Vector3.unit_y
  exact Matrix3.ext_comp (by ring) (by ring) (by ring) (by ring) (by ring)
    (by ring) (by ring) (by ring) (by ring)

/-- The specialized `from_angle_z` of `Basis3` agrees with the trait's
default axis-angle implementation. -/
lemma from_angle_z_eq_default (theta : ℝ) :
    Basis3.from_angle_z theta = Rotation3.from_angle_z_default theta := by
  unfold Rotation3.from_angle_z_default Basis3.from_angle_z Basis3.from_axis_angle
  refine congrArg Basis3.mk ?_
  unfold Matrix3.from_angle_z Matrix3.from_axis_angle Vector3.unit_z
  exact Matrix3.ext_comp (by ring) (by ring) (by ring) (by ring) (by ring)
    (by ring) (by ring) (by ring) (by ring)

/-- The Euler-angle matrix is the product of the three single-axis
matrices, z-axis times y-axis times x-axis. -/
lemma from_euler_mat_eq (x y z : ℝ) :
    Matrix3.from_euler x y z =
      (Matrix3.from_angle_z z).mul ((Matrix3.from_angle_y y).mul
        (Matrix3.from_angle_x x)) := by
  unfold Matrix3.from_euler Matrix3.from_angle_x Matrix3.from_angle_y
    Matrix3.from_angle_z Matrix3.mul Matrix3.mulVec
  exact Matrix3.ext_comp (by ring) (by ring) (by ring) (by ring) (by ring)
    (by ring) (by ring) (by ring) (by ring)

/-- The Euler-angle rotation matrix is orthogonal. -/
lemma Matrix3.from_euler_orth (x y z : ℝ) :
    (Matrix3.from_euler x y z).transpose.mul (Matrix3.from_euler x y z) =
      Matrix3.identity := by
  rw [from_euler_mat_eq]
  exact Matrix3.orth_mul (Matrix3.from_angle_z_orth z)
    (Matrix3.orth_mul (Matrix3.from_angle_y_orth y)
      (Matrix3.from_angle_x_orth x))

/-! Claim theorems. -/

/-- C7: for every rotation `r` and point `p`, `r.rotate_point p` equals
`P::from_vec (r.rotate_vector p.to_vec)` — the point is converted to its
vector representation, rotated, and converted back — and `Basis2` and
`Basis3` inherit this default without overriding it, so points and free
vectors transform identically. -/
theorem rotate_point_is_rotate_vector :
    (∀ (r : Basis2) (p : Point2),
      r.rotate_point p = Point2.from_vec (r.rotate_vector p.to_vec)) ∧
    (∀ (r : Basis2) (v : Vector2),
      r.rotate_point (Point2.from_vec v) = Point2.from_vec (r.rotate_vector v)) ∧
    (∀ (r : Basis3) (p : Point3),
      r.rotate_point p = Point3.from_vec (r.rotate_vector p.to_vec)) ∧
    (∀ (r : Basis3) (v : Vector3),
      r.rotate_point (Point3.from_vec v) = Point3.from_vec (r.rotate_vector v)) :=
  ⟨fun _ _ => rfl, fun _ _ => rfl, fun _ _ => rfl, fun _ _ => rfl⟩

/-- C8: the in-place variants have identical semantics to the pure
operations: after `concat_self` the receiver holds `concat`'s result and
after `invert_self` it holds `invert`'s result, both for the trait's
default implementations and for the overridden implementations of `Basis2`
and `Basis3`. -/
theorem in_place_variants_match_pure :
    (∀ r other : Basis2, r.concat_self other = r.concat other) ∧
    (∀ r other : Basis2, Rotation.concat_self_default r other = r.concat other) ∧
    (∀ r : Basis2, r.invert_self = r.invert) ∧
    (∀ r : Basis2, Rotation.invert_self_default r = r.invert) ∧
    (∀ r other : Basis3, r.concat_self other = r.concat other) ∧
    (∀ r other : Basis3, Rotation.concat_self_default3 r other = r.concat other) ∧
    (∀ r : Basis3, r.invert_self = r.invert) ∧
    (∀ r : Basis3, Rotation.invert_self_default3 r = r.invert) :=
  ⟨fun _ _ => rfl, fun _ _ => rfl, fun _ => rfl, fun _ => rfl,
   fun _ _ => rfl, fun _ _ => rfl, fun _ => rfl, fun _ => rfl⟩

/-- C6: for every angle, the specialized matrix-based `from_angle_x`,
`from_angle_y` and `from_angle_z` of `Basis3` each equal `from_axis_angle`
with the corresponding unit basis vector, which is the `Rotation3` trait's
default implementation. -/
theorem specialized_single_axis_eq_axis_angle (theta : ℝ) :
    Basis3.from_angle_x theta = Rotation3.from_angle_x_default theta ∧
    Basis3.from_angle_y theta = Rotation3.from_angle_y_default theta ∧
    Basis3.from_angle_z theta = Rotation3.from_angle_z_default theta :=
  ⟨from_angle_x_eq_default theta, from_angle_y_eq_default theta,
   from_angle_z_eq_default theta⟩

/-- C5: `from_euler x y z` is the composition of `from_angle_x x`, then
`from_angle_y y`, then `from_angle_z z`, applied to vectors in that fixed
order (equivalently, the `concat` of the single-axis rotations z∘y∘x); and
swapping the y and z rotations changes the result at `x = 0`,
`y = z = π/2`. -/
theorem from_euler_is_ordered_composition :
    (∀ x y z : ℝ, Basis3.from_euler x y z =
      (Basis3.from_angle_z z).concat
        ((Basis3.from_angle_y y).concat (Basis3.from_angle_x x))) ∧
    (∀ (x y z : ℝ) (v : Vector3),
      (Basis3.from_euler x y z).rotate_vector v =
        (Basis3.from_angle_z z).rotate_vector
          ((Basis3.from_angle_y y).rotate_vector
            ((Basis3.from_angle_x x).rotate_vector v))) ∧
    Basis3.from_euler 0 (Real.pi / 2) (Real.pi / 2) ≠
      (Basis3.from_angle_y (Real.pi / 2)).concat
        ((Basis3.from_angle_z (Real.pi / 2)).concat
          (Basis3.from_angle_x 0)) := by
  refine ⟨?_, ?_, ?_⟩
  · intro x y z
    show Basis3.mk (Matrix3.from_euler x y z) = _
    rw [from_euler_mat_eq x y z]
    rfl
  · intro x y z v
    unfold Basis3.rotate_vector Basis3.from_euler Basis3.from_angle_x
      Basis3.from_angle_y Basis3.from_angle_z
    unfold Matrix3.from_euler Matrix3.from_angle_x Matrix3.from_angle_y
      Matrix3.from_angle_z Matrix3.mulVec
    ext <;> dsimp <;> ring
  · intro h
    have hc := congrArg (fun b => b.mat.x.y) h
    unfold Basis3.from_euler Basis3.from_angle_x Basis3.from_angle_y
      Basis3.from_angle_z Basis3.concat Matrix3.from_euler
      Matrix3.from_angle_x Matrix3.from_angle_y Matrix3.from_angle_z
      Matrix3.mul Matrix3.mulVec at hc
    simp [Real.cos_pi_div_two, Real.sin_pi_div_two] at hc

/-- C10: composing two 2D rotations built by `from_angle` adds the angles:
`from_angle θ` concatenated with `from_angle φ` equals
`from_angle (θ + φ)`; consequently such compositions commute. -/
theorem from_angle_concat_adds_angles (theta phi : ℝ) :
    (Basis2.from_angle theta).concat (Basis2.from_angle phi) =
      Basis2.from_angle (theta + phi) ∧
    (Basis2.from_angle theta).concat (Basis2.from_angle phi) =
      (Basis2.from_angle phi).concat (Basis2.from_angle theta) := by
  constructor
  · unfold Basis2.from_angle Basis2.concat
    refine congrArg Basis2.mk ?_
    unfold Matrix2.from_angle Matrix2.mul Matrix2.mulVec
    refine Matrix2.ext_comp2 ?_ ?_ ?_ ?_ <;>
      simp [Real.cos_add, Real.sin_add] <;> ring
  · unfold Basis2.from_angle Basis2.concat
    refine congrArg Basis2.mk ?_
    unfold Matrix2.from_angle Matrix2.mul Matrix2.mulVec
    exact Matrix2.ext_comp2 (by ring) (by ring) (by ring) (by ring)

/-- The identity rotation satisfies the 2D orthogonality invariant. -/
lemma Basis2.one_orthogonal2 : Basis2.one.Orthogonal := by
  unfold Basis2.Orthogonal Basis2.one Matrix2.transpose Matrix2.mul
    Matrix2.mulVec Matrix2.identity
  exact Matrix2.ext_comp2 (by norm_num) (by norm_num) (by norm_num) (by norm_num)

/-- The identity rotation satisfies the 3D orthogonality invariant. -/
lemma Basis3.one_orthogonal : Basis3.one.Orthogonal := by
  unfold Basis3.Orthogonal Basis3.one Matrix3.transpose Matrix3.mul
    Matrix3.mulVec Matrix3.identity
  exact Matrix3.ext_comp (by norm_num) (by norm_num) (by norm_num)
    (by norm_num) (by norm_num) (by norm_num) (by norm_num) (by norm_num)
    (by norm_num)

/-- C3: for every `Basis2` or `Basis3` rotation satisfying the
orthogonality invariant, `invert` succeeds and both `r.concat r⁻¹` and
`r⁻¹.concat r` equal the identity rotation `one`. -/
theorem concat_invert_is_identity :
    (∀ r : Basis2, r.Orthogonal → ∃ ri : Basis2, r.invert = some ri ∧
      r.concat ri = Basis2.one ∧ ri.concat r = Basis2.one) ∧
    (∀ r : Basis3, r.Orthogonal → ∃ ri : Basis3, r.invert = some ri ∧
      r.concat ri = Basis3.one ∧ ri.concat r = Basis3.one) := by
  constructor
  · intro r h
    have hdet := Matrix2.orth_det_ne2 h
    refine ⟨⟨r.mat.invMat⟩, ?_, ?_, ?_⟩
    · unfold Basis2.invert
      rw [Matrix2.invert_eq_some2 hdet]
      rfl
    · exact congrArg Basis2.mk (Matrix2.mul_invMat2 hdet)
    · exact congrArg Basis2.mk (Matrix2.invMat_mul2 hdet)
  · intro r h
    have hdet := Matrix3.orth_det_ne h
    refine ⟨⟨r.mat.invMat⟩, ?_, ?_, ?_⟩
    · unfold Basis3.invert
      rw [Matrix3.invert_eq_some hdet]
      rfl
    · exact congrArg Basis3.mk (Matrix3.mul_invMat hdet)
    · exact congrArg Basis3.mk (Matrix3.invMat_mul hdet)

/-- Witness for C3: the inverse law holds at the concrete orthogonal
rotations `Basis2.one` and `Basis3.one`. -/
theorem concat_invert_is_identity_witness :
    Basis2.one.Orthogonal ∧ Basis3.one.Orthogonal ∧
    (∃ ri : Basis2, Basis2.one.invert = some ri ∧
      Basis2.one.concat ri = Basis2.one ∧ ri.concat Basis2.one = Basis2.one) ∧
    (∃ ri : Basis3, Basis3.one.invert = some ri ∧
      Basis3.one.concat ri = Basis3.one ∧ ri.concat Basis3.one = Basis3.one) :=
  ⟨Basis2.one_orthogonal2, Basis3.one_orthogonal,
   concat_invert_is_identity.1 Basis2.one Basis2.one_orthogonal2,
   concat_invert_is_identity.2 Basis3.one Basis3.one_orthogonal⟩

/-- C4: `invert` panics (returns the modelled `none`) exactly when the
matrix collaborator reports the wrapped matrix non-invertible (vanishing
determinant); when the collaborator succeeds, `invert` returns exactly the
wrapped collaborator result; and under the orthogonality invariant the
failure branch is unreachable. -/
theorem invert_aborts_iff_collaborator_fails :
    (∀ r : Basis2,
      (r.invert = none ↔ r.mat.invert = none) ∧
      (r.mat.invert = none ↔ r.mat.det = 0) ∧
      (∀ m' : Matrix2, r.mat.invert = some m' → r.invert = some ⟨m'⟩) ∧
      (r.Orthogonal → r.invert ≠ none)) ∧
    (∀ r : Basis3,
      (r.invert = none ↔ r.mat.invert = none) ∧
      (r.mat.invert = none ↔ r.mat.det = 0) ∧
      (∀ m' : Matrix3, r.mat.invert = some m' → r.invert = some ⟨m'⟩) ∧
      (r.Orthogonal → r.invert ≠ none)) := by
  constructor
  · intro r
    refine ⟨?_, Matrix2.invert_eq_none_iff2 r.mat, ?_, ?_⟩
    · unfold Basis2.invert
      cases r.mat.invert <;> simp
    · intro m' hm
      unfold Basis2.invert
      rw [hm]
      rfl
    · intro horth hnone
      have hdet := Matrix2.orth_det_ne2 horth
      unfold Basis2.invert at hnone
      rw [Matrix2.invert_eq_some2 hdet] at hnone
      exact Option.noConfusion hnone
  · intro r
    refine ⟨?_, Matrix3.invert_eq_none_iff r.mat, ?_, ?_⟩
    · unfold Basis3.invert
      cases r.mat.invert <;> simp
    · intro m' hm
      unfold Basis3.invert
      rw [hm]
      rfl
    · intro horth hnone
      have hdet := Matrix3.orth_det_ne horth
      unfold Basis3.invert at hnone
      rw [Matrix3.invert_eq_some hdet] at hnone
      exact Option.noConfusion hnone

/-- Witness for C4: at the concrete rotation `one`, the collaborator
succeeds (nonzero determinant), `invert` wraps its result, and under the
orthogonality invariant the panic branch is not taken. -/
theorem invert_aborts_iff_collaborator_fails_witness :
    (Basis2.one.invert = some ⟨Matrix2.identity.invMat⟩) ∧
    Basis2.one.invert ≠ none ∧
    (Basis3.one.invert = some ⟨Matrix3.identity.invMat⟩) ∧
    Basis3.one.invert ≠ none := by
  have h2 : Basis2.one.mat.invert = some Matrix2.identity.invMat := by
    apply Matrix2.invert_eq_some2
    unfold Basis2.one Matrix2.det Matrix2.identity
    norm_num
  have h3 : Basis3.one.mat.invert = some Matrix3.identity.invMat := by
    apply Matrix3.invert_eq_some
    unfold Basis3.one Matrix3.det Matrix3.identity
    norm_num
  exact ⟨(invert_aborts_iff_collaborator_fails.1 Basis2.one).2.2.1 _ h2,
    (invert_aborts_iff_collaborator_fails.1 Basis2.one).2.2.2
      Basis2.one_orthogonal2,
    (invert_aborts_iff_collaborator_fails.2 Basis3.one).2.2.1 _ h3,
    (invert_aborts_iff_collaborator_fails.2 Basis3.one).2.2.2
      Basis3.one_orthogonal⟩

/-- C2: every `Basis2` and `Basis3` value reachable through the public API
— constructed by `one`, `from_angle`, `from_axis_angle` (unit axis, per
the spec's precondition), `from_euler`, `from_angle_x/y/z`, `look_at`
(non-parallel, non-zero `dir` and `up`), `between_vectors` (unit inputs)
or `from_quaternion` (unit quaternion), and closed under `concat`,
`concat_self`, `invert` and `invert_self` — satisfies the orthogonality
invariant: the wrapped matrix has orthonormal columns. -/
theorem orthogonality_invariant :
    Basis2.one.Orthogonal ∧
    (∀ theta : ℝ, (Basis2.from_angle theta).Orthogonal) ∧
    (∀ dir up : Vector2, dir.perp_dot up ≠ 0 →
      (Basis2.look_at dir up).Orthogonal) ∧
    (∀ a b : Vector2, a.magnitude2 = 1 → b.magnitude2 = 1 →
      (Basis2.between_vectors a b).Orthogonal) ∧
    (∀ r s : Basis2, r.Orthogonal → s.Orthogonal →
      (r.concat s).Orthogonal) ∧
    (∀ r s : Basis2, r.Orthogonal → s.Orthogonal →
      (r.concat_self s).Orthogonal) ∧
    (∀ r ri : Basis2, r.Orthogonal → r.invert = some ri → ri.Orthogonal) ∧
    (∀ r ri : Basis2, r.Orthogonal → r.invert_self = some ri →
      ri.Orthogonal) ∧
    Basis3.one.Orthogonal ∧
    (∀ (axis : Vector3) (angle : ℝ), axis.magnitude2 = 1 →
      (Basis3.from_axis_angle axis angle).Orthogonal) ∧
    (∀ x y z : ℝ, (Basis3.from_euler x y z).Orthogonal) ∧
    (∀ theta : ℝ, (Basis3.from_angle_x theta).Orthogonal) ∧
    (∀ theta : ℝ, (Basis3.from_angle_y theta).Orthogonal) ∧
    (∀ theta : ℝ, (Basis3.from_angle_z theta).Orthogonal) ∧
    (∀ dir up : Vector3, up.cross dir ≠ ⟨0, 0, 0⟩ →
      (Basis3.look_at dir up).Orthogonal) ∧
    (∀ a b : Vector3, a.magnitude2 = 1 → b.magnitude2 = 1 →
      (Basis3.between_vectors a b).Orthogonal) ∧
    (∀ q : Quaternion, q.magnitude2 = 1 →
      (Basis3.from_quaternion q).Orthogonal) ∧
    (∀ r s : Basis3, r.Orthogonal → s.Orthogonal →
      (r.concat s).Orthogonal) ∧
    (∀ r s : Basis3, r.Orthogonal → s.Orthogonal →
      (r.concat_self s).Orthogonal) ∧
    (∀ r ri : Basis3, r.Orthogonal → r.invert = some ri → ri.Orthogonal) ∧
    (∀ r ri : Basis3, r.Orthogonal → r.invert_self = some ri →
      ri.Orthogonal) := by
  refine ⟨Basis2.one_orthogonal2, ?_, ?_, ?_, ?_, ?_, ?_, ?_,
    Basis3.one_orthogonal, ?_, ?_, ?_, ?_, ?_, ?_, ?_, ?_, ?_, ?_, ?_, ?_⟩
  · intro theta
    exact Matrix2.from_angle_orth theta
  · intro dir up hpar
    have hdir : dir ≠ ⟨0, 0⟩ := by
      intro h0
      apply hpar
      rw [h0]
      unfold Vector2.perp_dot
      dsimp
      ring
    exact Matrix2.look_at_orth2 hdir
  · intro a b _ _
    exact Matrix2.from_angle_orth _
  · intro r s hr hs
    exact Matrix2.orth_mul2 hr hs
  · intro r s hr hs
    exact Matrix2.orth_mul2 hr hs
  · intro r ri hr hsome
    have hdet := Matrix2.orth_det_ne2 hr
    unfold Basis2.invert at hsome
    rw [Matrix2.invert_eq_some2 hdet] at hsome
    have : ri = ⟨r.mat.invMat⟩ := (Option.some.inj hsome).symm
    rw [this]
    exact Matrix2.orth_invMat2 hr
  · intro r ri hr hsome
    have hdet := Matrix2.orth_det_ne2 hr
    unfold Basis2.invert_self at hsome
    rw [Matrix2.invert_eq_some2 hdet] at hsome
    have : ri = ⟨r.mat.invMat⟩ := (Option.some.inj hsome).symm
    rw [this]
    exact Matrix2.orth_invMat2 hr
  · intro axis angle ha
    have ha' : axis.x ^ 2 + axis.y ^ 2 + axis.z ^ 2 = 1 := by
      unfold Vector3.magnitude2 Vector3.dot at ha
      linear_combination ha
    exact Matrix3.from_axis_angle_orth angle ha'
  · intro x y z
    exact Matrix3.from_euler_orth x y z
  · intro theta
    exact Matrix3.from_angle_x_orth theta
  · intro theta
    exact Matrix3.from_angle_y_orth theta
  · intro theta
    exact Matrix3.from_angle_z_orth theta
  · intro dir up hcr
    exact Matrix3.look_at_orth hcr
  · intro a b ha hb
    exact Basis3.between_vectors_orth ha hb
  · intro q hq
    exact Quaternion.toMatrix3_orth hq
  · intro r s hr hs
    exact Matrix3.orth_mul hr hs
  · intro r s hr hs
    exact Matrix3.orth_mul hr hs
  · intro r ri hr hsome
    have hdet := Matrix3.orth_det_ne hr
    unfold Basis3.invert at hsome
    rw [Matrix3.invert_eq_some hdet] at hsome
    have : ri = ⟨r.mat.invMat⟩ := (Option.some.inj hsome).symm
    rw [this]
    exact Matrix3.orth_invMat hr
  · intro r ri hr hsome
    have hdet := Matrix3.orth_det_ne hr
    unfold Basis3.invert_self at hsome
    rw [Matrix3.invert_eq_some hdet] at hsome
    have : ri = ⟨r.mat.invMat⟩ := (Option.some.inj hsome).symm
    rw [this]
    exact Matrix3.orth_invMat hr

/-- Witness for C2: the orthogonality invariant holds at concrete inputs
for every hypothesis-bearing constructor and closure operation. -/
theorem orthogonality_invariant_witness :
    (Basis2.look_at ⟨1, 0⟩ ⟨0, 1⟩).Orthogonal ∧
    (Basis2.between_vectors ⟨1, 0⟩ ⟨0, 1⟩).Orthogonal ∧
    (Basis2.one.concat Basis2.one).Orthogonal ∧
    (Basis2.one.concat_self Basis2.one).Orthogonal ∧
    (Basis2.mk Matrix2.identity.invMat).Orthogonal ∧
    (Basis3.from_axis_angle ⟨1, 0, 0⟩ 1).Orthogonal ∧
    (Basis3.look_at ⟨0, 0, 1⟩ ⟨0, 1, 0⟩).Orthogonal ∧
    (Basis3.between_vectors ⟨1, 0, 0⟩ ⟨0, 1, 0⟩).Orthogonal ∧
    (Basis3.from_quaternion ⟨1, ⟨0, 0, 0⟩⟩).Orthogonal ∧
    (Basis3.one.concat Basis3.one).Orthogonal ∧
    (Basis3.mk Matrix3.identity.invMat).Orthogonal := by
  have hperp : (Vector2.mk 1 0).perp_dot ⟨0, 1⟩ ≠ 0 := by
    unfold Vector2.perp_dot
    norm_num
  have hmag2a : (Vector2.mk 1 0).magnitude2 = 1 := by
    unfold Vector2.magnitude2 Vector2.dot
    norm_num
  have hmag2b : (Vector2.mk 0 1).magnitude2 = 1 := by
    unfold Vector2.magnitude2 Vector2.dot
    norm_num
  have haxis : (Vector3.mk 1 0 0).magnitude2 = 1 := by
    unfold Vector3.magnitude2 Vector3.dot
    norm_num
  have hbv : (Vector3.mk 0 1 0).magnitude2 = 1 := by
    unfold Vector3.magnitude2 Vector3.dot
    norm_num
  have hcr : (Vector3.mk 0 1 0).cross ⟨0, 0, 1⟩ ≠ ⟨0, 0, 0⟩ := by
    intro h0
    have h1 := congrArg Vector3.x h0
    unfold Vector3.cross at h1
    dsimp at h1
    norm_num at h1
  have hq : (Quaternion.mk 1 ⟨0, 0, 0⟩).magnitude2 = 1 := by
    unfold Quaternion.magnitude2 Vector3.magnitude2 Vector3.dot
    norm_num
  have hinv2 : Basis2.one.invert = some ⟨Matrix2.identity.invMat⟩ := by
    unfold Basis2.invert
    rw [Matrix2.invert_eq_some2 (by unfold Basis2.one Matrix2.det Matrix2.identity; norm_num)]
    rfl
  have hinv3 : Basis3.one.invert = some ⟨Matrix3.identity.invMat⟩ := by
    unfold Basis3.invert
    rw [Matrix3.invert_eq_some (by unfold Basis3.one Matrix3.det Matrix3.identity; norm_num)]
    rfl
  exact ⟨orthogonality_invariant.2.2.1 _ _ hperp,
    orthogonality_invariant.2.2.2.1 _ _ hmag2a hmag2b,
    orthogonality_invariant.2.2.2.2.1 _ _ Basis2.one_orthogonal2
      Basis2.one_orthogonal2,
    orthogonality_invariant.2.2.2.2.2.1 _ _ Basis2.one_orthogonal2
      Basis2.one_orthogonal2,
    orthogonality_invariant.2.2.2.2.2.2.1 _ _ Basis2.one_orthogonal2 hinv2,
    orthogonality_invariant.2.2.2.2.2.2.2.2.2.1 _ _ haxis,
    orthogonality_invariant.2.2.2.2.2.2.2.2.2.2.2.2.2.2.1 _ _ hcr,
    orthogonality_invariant.2.2.2.2.2.2.2.2.2.2.2.2.2.2.2.1 _ _ haxis hbv,
    orthogonality_invariant.2.2.2.2.2.2.2.2.2.2.2.2.2.2.2.2.1 _ hq,
    orthogonality_invariant.2.2.2.2.2.2.2.2.2.2.2.2.2.2.2.2.2.1 _ _
      Basis3.one_orthogonal Basis3.one_orthogonal,
    orthogonality_invariant.2.2.2.2.2.2.2.2.2.2.2.2.2.2.2.2.2.2.2.1 _ _
      Basis3.one_orthogonal hinv3⟩

/-- Counterexample for C1: on the unit vectors `a = (0,1)` and
`b = (1,0)` — whose signed angle is negative — `Basis2::between_vectors`
rotates by the unsigned angle `acos 0 = π/2` and sends `a` to `(-1,0)`,
not to `b`. -/
theorem between_vectors_2d_counterexample :
    (Vector2.mk 0 1).magnitude2 = 1 ∧ (Vector2.mk 1 0).magnitude2 = 1 ∧
    (Basis2.between_vectors ⟨0, 1⟩ ⟨1, 0⟩).rotate_vector ⟨0, 1⟩ ≠
      (⟨1, 0⟩ : Vector2) := by
  refine ⟨by unfold Vector2.magnitude2 Vector2.dot; norm_num,
    by unfold Vector2.magnitude2 Vector2.dot; norm_num, ?_⟩
  intro h
  have harg : (Vector2.mk 0 1).dot ⟨1, 0⟩ = 0 := by
    unfold Vector2.dot
    norm_num
  have hx := congrArg Vector2.x h
  unfold Basis2.rotate_vector Basis2.between_vectors Basis2.from_angle
    Matrix2.from_angle Matrix2.mulVec at hx
  dsimp at hx
  rw [harg, Real.arccos_zero, Real.sin_pi_div_two, Real.cos_pi_div_two] at hx
  norm_num at hx

set_option maxHeartbeats 1600000 in
/-- C1 (amended): `between_vectors(a, b).rotate_vector(a)` equals `b` for
unit vectors — for `Basis3` unconditionally, but for `Basis2` only when
the signed angle from `a` to `b` is nonnegative (`perp_dot a b ≥ 0`),
since the 2D construction always rotates counter-clockwise by the
unsigned angle `acos(dot(a,b))`. -/
theorem between_vectors_maps_first_to_second :
    (∀ a b : Vector2, a.magnitude2 = 1 → b.magnitude2 = 1 →
      0 ≤ a.perp_dot b →
      (Basis2.between_vectors a b).rotate_vector a = b) ∧
    (∀ a b : Vector3, a.magnitude2 = 1 → b.magnitude2 = 1 →
      (Basis3.between_vectors a b).rotate_vector a = b) := by
  constructor
  · intro a b ha hb hperp
    unfold Vector2.magnitude2 Vector2.dot at ha hb
    unfold Vector2.perp_dot at hperp
    have hlag : (a.x * b.x + a.y * b.y) ^ 2 + (a.x * b.y - a.y * b.x) ^ 2 = 1 := by
      linear_combination (b.x * b.x + b.y * b.y) * ha + hb
    have hd_ge : -1 ≤ a.x * b.x + a.y * b.y := by
      nlinarith [hlag, sq_nonneg (a.x * b.x + a.y * b.y + 1),
        sq_nonneg (a.x * b.y - a.y * b.x)]
    have hd_le : a.x * b.x + a.y * b.y ≤ 1 := by
      nlinarith [hlag, sq_nonneg (a.x * b.x + a.y * b.y - 1),
        sq_nonneg (a.x * b.y - a.y * b.x)]
    have harg : a.dot b = a.x * b.x + a.y * b.y := rfl
    have hcos : Real.cos (Real.arccos (a.dot b)) = a.x * b.x + a.y * b.y := by
      rw [harg]
      exact Real.cos_arccos hd_ge hd_le
    have hsin : Real.sin (Real.arccos (a.dot b)) = a.x * b.y - a.y * b.x := by
      rw [harg, Real.sin_arccos]
      have h1 : 1 - (a.x * b.x + a.y * b.y) ^ 2 = (a.x * b.y - a.y * b.x) ^ 2 := by
        linear_combination -hlag
      rw [h1]
      exact Real.sqrt_sq hperp
    unfold Basis2.rotate_vector Basis2.between_vectors Basis2.from_angle
      Matrix2.from_angle Matrix2.mulVec
    dsimp
    rw [hcos, hsin]
    refine Vector2.ext ?_ ?_ <;> dsimp
    · linear_combination b.x * ha
    · linear_combination b.y * ha
  · intro a b ha hb
    have ha0 := ha
    unfold Vector3.magnitude2 Vector3.dot at ha hb
    unfold Basis3.between_vectors Quaternion.between_vectors
      Quaternion.from_arc
    split_ifs with hd
    · -- antiparallel case: b = -a and the fallback is a half turn about a
      -- perpendicular axis
      have hd' : 1 + (a.x * b.x + a.y * b.y + a.z * b.z) = 0 := by
        unfold Vector3.dot at hd
        linarith [hd]
      have hsum : (a.x + b.x) ^ 2 + (a.y + b.y) ^ 2 + (a.z + b.z) ^ 2 = 0 := by
        linear_combination ha + hb + 2 * hd'
      have hbx : b.x = -a.x := by
        nlinarith [hsum, sq_nonneg (a.x + b.x), sq_nonneg (a.y + b.y),
          sq_nonneg (a.z + b.z)]
      have hby : b.y = -a.y := by
        nlinarith [hsum, sq_nonneg (a.x + b.x), sq_nonneg (a.y + b.y),
          sq_nonneg (a.z + b.z)]
      have hbz : b.z = -a.z := by
        nlinarith [hsum, sq_nonneg (a.x + b.x), sq_nonneg (a.y + b.y),
          sq_nonneg (a.z + b.z)]
      have hn : a.perp_unit.x * a.perp_unit.x + a.perp_unit.y * a.perp_unit.y +
          a.perp_unit.z * a.perp_unit.z = 1 := by
        have := Vector3.perp_unit_mag ha0
        unfold Vector3.magnitude2 Vector3.dot at this
        exact this
      have hna := Vector3.perp_unit_dot a
      unfold Basis3.from_quaternion Basis3.rotate_vector Quaternion.toMatrix3
        Matrix3.mulVec
      dsimp
      refine Vector3.ext ?_ ?_ ?_ <;> dsimp
      · rw [hbx]
        linear_combination (2 * a.perp_unit.x) * hna + (-2 * a.x) * hn
      · rw [hby]
        linear_combination (2 * a.perp_unit.y) * hna + (-2 * a.y) * hn
      · rw [hbz]
        linear_combination (2 * a.perp_unit.z) * hna + (-2 * a.z) * hn
    · -- generic case: the normalized shortest-arc quaternion
      have h1 : 0 < (1 + a.dot b) * (1 + a.dot b) := mul_self_pos.mpr hd
      have h2 : 0 ≤ (a.cross b).magnitude2 := by
        unfold Vector3.magnitude2 Vector3.dot
        nlinarith [mul_self_nonneg (a.cross b).x,
          mul_self_nonneg (a.cross b).y, mul_self_nonneg (a.cross b).z]
      have hN : 0 < (Quaternion.mk (1 + a.dot b) (a.cross b)).magnitude2 := by
        unfold Quaternion.magnitude2
        dsimp
        linarith [h1, h2]
      have hNne : (Quaternion.mk (1 + a.dot b) (a.cross b)).magnitude2 ≠ 0 :=
        ne_of_gt hN
      have hcc : Real.sqrt (Quaternion.mk (1 + a.dot b) (a.cross b)).magnitude2 *
          Real.sqrt (Quaternion.mk (1 + a.dot b) (a.cross b)).magnitude2 =
          (Quaternion.mk (1 + a.dot b) (a.cross b)).magnitude2 :=
        Real.mul_self_sqrt (le_of_lt hN)
      have hcne : Real.sqrt (Quaternion.mk (1 + a.dot b) (a.cross b)).magnitude2 ≠
          0 := ne_of_gt (Real.sqrt_pos.mpr hN)
      unfold Basis3.from_quaternion Basis3.rotate_vector Quaternion.toMatrix3
        Quaternion.normalize Matrix3.mulVec
      dsimp
      refine Vector3.ext ?_ ?_ ?_ <;> dsimp
      · simp only [mul_assoc]
        simp only [div_mul_div_comm]
        simp only [hcc]
        field_simp
        unfold Quaternion.magnitude2 Vector3.magnitude2 Vector3.dot
          Vector3.cross
        dsimp
        linear_combination (a.x * b.x ^ 2 - a.x * b.y ^ 2 - a.x * b.z ^ 2 +
            2 * a.y * b.x * b.y + 2 * a.z * b.x * b.z + 2 * b.x -
            b.x * b.y ^ 2 - b.x * b.z ^ 2 - b.x ^ 3) * ha +
          (-a.x - b.x) * hb
      · simp only [mul_assoc]
        simp only [div_mul_div_comm]
        simp only [hcc]
        field_simp
        unfold Quaternion.magnitude2 Vector3.magnitude2 Vector3.dot
          Vector3.cross
        dsimp
        linear_combination (2 * a.x * b.x * b.y - a.y * b.x ^ 2 +
            a.y * b.y ^ 2 - a.y * b.z ^ 2 + 2 * a.z * b.y * b.z -
            b.x ^ 2 * b.y + 2 * b.y - b.y * b.z ^ 2 - b.y ^ 3) * ha +
          (-a.y - b.y) * hb
      · simp only [mul_assoc]
        simp only [div_mul_div_comm]
        simp only [hcc]
        field_simp
        unfold Quaternion.magnitude2 Vector3.magnitude2 Vector3.dot
          Vector3.cross
        dsimp
        linear_combination (2 * a.x * b.x * b.z + 2 * a.y * b.y * b.z -
            a.z * b.x ^ 2 - a.z * b.y ^ 2 + a.z * b.z ^ 2 -
            b.x ^ 2 * b.z - b.y ^ 2 * b.z + 2 * b.z - b.z ^ 3) * ha +
          (-a.z - b.z) * hb

/-- Witness for C1: the amended between-vectors law at the concrete unit
inputs `(1,0) ↦ (0,1)` in 2D (nonnegative signed angle) and
`(1,0,0) ↦ (0,1,0)` in 3D. -/
theorem between_vectors_maps_first_to_second_witness :
    0 ≤ (Vector2.mk 1 0).perp_dot ⟨0, 1⟩ ∧
    (Basis2.between_vectors ⟨1, 0⟩ ⟨0, 1⟩).rotate_vector ⟨1, 0⟩ =
      (⟨0, 1⟩ : Vector2) ∧
    (Basis3.between_vectors ⟨1, 0, 0⟩ ⟨0, 1, 0⟩).rotate_vector ⟨1, 0, 0⟩ =
      (⟨0, 1, 0⟩ : Vector3) := by
  have hp : 0 ≤ (Vector2.mk 1 0).perp_dot ⟨0, 1⟩ := by
    unfold Vector2.perp_dot
    norm_num
  have h2a : (Vector2.mk 1 0).magnitude2 = 1 := by
    unfold Vector2.magnitude2 Vector2.dot
    norm_num
  have h2b : (Vector2.mk 0 1).magnitude2 = 1 := by
    unfold Vector2.magnitude2 Vector2.dot
    norm_num
  have h3a : (Vector3.mk 1 0 0).magnitude2 = 1 := by
    unfold Vector3.magnitude2 Vector3.dot
    norm_num
  have h3b : (Vector3.mk 0 1 0).magnitude2 = 1 := by
    unfold Vector3.magnitude2 Vector3.dot
    norm_num
  exact ⟨hp, between_vectors_maps_first_to_second.1 _ _ h2a h2b hp,
    between_vectors_maps_first_to_second.2 _ _ h3a h3b⟩

set_option maxHeartbeats 3200000 in
/-- C9 (amended): for every `Basis3` whose matrix is orthogonal with
determinant one (a proper rotation — which is what the constructors
produce), converting to a quaternion and back reproduces the matrix
exactly over the reals; the restriction to determinant one is forced,
since an orthogonal matrix with determinant `-1` (a reflection) has no
quaternion representative. -/
theorem quaternion_round_trip (r : Basis3) (horth : r.Orthogonal)
    (hdet : r.mat.det = 1) :
    Basis3.from_quaternion r.toQuaternion = r := by
  unfold Basis3.Orthogonal at horth
  have hflip := Matrix3.orth_flip horth
  have hadj := Matrix3.rotation_adjugate horth hdet
  have hcx : r.mat.x.x * r.mat.x.x + r.mat.x.y * r.mat.x.y +
      r.mat.x.z * r.mat.x.z = 1 := by
    have h1 := congrArg (fun M => M.x.x) horth
    unfold Matrix3.transpose Matrix3.mul Matrix3.mulVec Matrix3.identity at h1
    dsimp at h1
    linarith [h1]
  have hcy : r.mat.y.x * r.mat.y.x + r.mat.y.y * r.mat.y.y +
      r.mat.y.z * r.mat.y.z = 1 := by
    have h1 := congrArg (fun M => M.y.y) horth
    unfold Matrix3.transpose Matrix3.mul Matrix3.mulVec Matrix3.identity at h1
    dsimp at h1
    linarith [h1]
  have hcz : r.mat.z.x * r.mat.z.x + r.mat.z.y * r.mat.z.y +
      r.mat.z.z * r.mat.z.z = 1 := by
    have h1 := congrArg (fun M => M.z.z) horth
    unfold Matrix3.transpose Matrix3.mul Matrix3.mulVec Matrix3.identity at h1
    dsimp at h1
    linarith [h1]
  have hcxy : r.mat.x.x * r.mat.y.x + r.mat.x.y * r.mat.y.y +
      r.mat.x.z * r.mat.y.z = 0 := by
    have h1 := congrArg (fun M => M.y.x) horth
    unfold Matrix3.transpose Matrix3.mul Matrix3.mulVec Matrix3.identity at h1
    dsimp at h1
    linarith [h1]
  have hcxz : r.mat.x.x * r.mat.z.x + r.mat.x.y * r.mat.z.y +
      r.mat.x.z * r.mat.z.z = 0 := by
    have h1 := congrArg (fun M => M.z.x) horth
    unfold Matrix3.transpose Matrix3.mul Matrix3.mulVec Matrix3.identity at h1
    dsimp at h1
    linarith [h1]
  have hcyz : r.mat.y.x * r.mat.z.x + r.mat.y.y * r.mat.z.y +
      r.mat.y.z * r.mat.z.z = 0 := by
    have h1 := congrArg (fun M => M.z.y) horth
    unfold Matrix3.transpose Matrix3.mul Matrix3.mulVec Matrix3.identity at h1
    dsimp at h1
    linarith [h1]
  have hr0 : r.mat.x.x * r.mat.x.x + r.mat.y.x * r.mat.y.x +
      r.mat.z.x * r.mat.z.x = 1 := by
    have h1 := congrArg (fun M => M.x.x) hflip
    unfold Matrix3.transpose Matrix3.mul Matrix3.mulVec Matrix3.identity at h1
    dsimp at h1
    linarith [h1]
  have hr1 : r.mat.x.y * r.mat.x.y + r.mat.y.y * r.mat.y.y +
      r.mat.z.y * r.mat.z.y = 1 := by
    have h1 := congrArg (fun M => M.y.y) hflip
    unfold Matrix3.transpose Matrix3.mul Matrix3.mulVec Matrix3.identity at h1
    dsimp at h1
    linarith [h1]
  have hr2 : r.mat.x.z * r.mat.x.z + r.mat.y.z * r.mat.y.z +
      r.mat.z.z * r.mat.z.z = 1 := by
    have h1 := congrArg (fun M => M.z.z) hflip
    unfold Matrix3.transpose Matrix3.mul Matrix3.mulVec Matrix3.identity at h1
    dsimp at h1
    linarith [h1]
  have hr01 : r.mat.x.x * r.mat.x.y + r.mat.y.x * r.mat.y.y +
      r.mat.z.x * r.mat.z.y = 0 := by
    have h1 := congrArg (fun M => M.y.x) hflip
    unfold Matrix3.transpose Matrix3.mul Matrix3.mulVec Matrix3.identity at h1
    dsimp at h1
    linarith [h1]
  have hr02 : r.mat.x.x * r.mat.x.z + r.mat.y.x * r.mat.y.z +
      r.mat.z.x * r.mat.z.z = 0 := by
    have h1 := congrArg (fun M => M.z.x) hflip
    unfold Matrix3.transpose Matrix3.mul Matrix3.mulVec Matrix3.identity at h1
    dsimp at h1
    linarith [h1]
  have hr12 : r.mat.x.y * r.mat.x.z + r.mat.y.y * r.mat.y.z +
      r.mat.z.y * r.mat.z.z = 0 := by
    have h1 := congrArg (fun M => M.z.y) hflip
    unfold Matrix3.transpose Matrix3.mul Matrix3.mulVec Matrix3.identity at h1
    dsimp at h1
    linarith [h1]
  have ha00 : r.mat.x.x = r.mat.y.y * r.mat.z.z - r.mat.y.z * r.mat.z.y := by
    have h1 := congrArg (fun M => M.x.x) hadj
    unfold Vector3.cross at h1
    dsimp at h1
    linarith [h1]
  have ha01 : r.mat.x.y = r.mat.y.z * r.mat.z.x - r.mat.y.x * r.mat.z.z := by
    have h1 := congrArg (fun M => M.x.y) hadj
    unfold Vector3.cross at h1
    dsimp at h1
    linarith [h1]
  have ha02 : r.mat.x.z = r.mat.y.x * r.mat.z.y - r.mat.y.y * r.mat.z.x := by
    have h1 := congrArg (fun M => M.x.z) hadj
    unfold Vector3.cross at h1
    dsimp at h1
    linarith [h1]
  have ha10 : r.mat.y.x = r.mat.z.y * r.mat.x.z - r.mat.z.z * r.mat.x.y := by
    have h1 := congrArg (fun M => M.y.x) hadj
    unfold Vector3.cross at h1
    dsimp at h1
    linarith [h1]
  have ha11 : r.mat.y.y = r.mat.z.z * r.mat.x.x - r.mat.z.x * r.mat.x.z := by
    have h1 := congrArg (fun M => M.y.y) hadj
    unfold Vector3.cross at h1
    dsimp at h1
    linarith [h1]
  have ha12 : r.mat.y.z = r.mat.z.x * r.mat.x.y - r.mat.z.y * r.mat.x.x := by
    have h1 := congrArg (fun M => M.y.z) hadj
    unfold Vector3.cross at h1
    dsimp at h1
    linarith [h1]
  have ha20 : r.mat.z.x = r.mat.x.y * r.mat.y.z - r.mat.x.z * r.mat.y.y := by
    have h1 := congrArg (fun M => M.z.x) hadj
    unfold Vector3.cross at h1
    dsimp at h1
    linarith [h1]
  have ha21 : r.mat.z.y = r.mat.x.z * r.mat.y.x - r.mat.x.x * r.mat.y.z := by
    have h1 := congrArg (fun M => M.z.y) hadj
    unfold Vector3.cross at h1
    dsimp at h1
    linarith [h1]
  have ha22 : r.mat.z.z = r.mat.x.x * r.mat.y.y - r.mat.x.y * r.mat.y.x := by
    have h1 := congrArg (fun M => M.z.z) hadj
    unfold Vector3.cross at h1
    dsimp at h1
    linarith [h1]
  have hbx0 : r.mat.x.x ≤ 1 := by
    nlinarith [hcx, mul_self_nonneg r.mat.x.y, mul_self_nonneg r.mat.x.z,
      sq_nonneg (r.mat.x.x - 1)]
  have hby1 : r.mat.y.y ≤ 1 := by
    nlinarith [hcy, mul_self_nonneg r.mat.y.x, mul_self_nonneg r.mat.y.z,
      sq_nonneg (r.mat.y.y - 1)]
  have hbz2 : r.mat.z.z ≤ 1 := by
    nlinarith [hcz, mul_self_nonneg r.mat.z.x, mul_self_nonneg r.mat.z.y,
      sq_nonneg (r.mat.z.z - 1)]
  unfold Basis3.from_quaternion Basis3.toQuaternion Matrix3.toQuaternion
  split_ifs with hb1 hb2 hb3
  · -- trace branch
    have hp1 : (0:ℝ) < 1 + r.mat.trace := by linarith [hb1]
    have hcne : Real.sqrt (1 + r.mat.trace) ≠ 0 :=
      ne_of_gt (Real.sqrt_pos.mpr hp1)
    have hcc : Real.sqrt (1 + r.mat.trace) * Real.sqrt (1 + r.mat.trace) =
        1 + r.mat.trace := Real.mul_self_sqrt (le_of_lt hp1)
    rw [Quaternion.toMatrix3_w_slot _ _ _ _ hcne]
    simp only [hcc]
    refine Basis3.ext ?_
    dsimp
    have htr : r.mat.trace = r.mat.x.x + r.mat.y.y + r.mat.z.z := rfl
    rw [htr]
    have hpne : (2:ℝ) * (1 + (r.mat.x.x + r.mat.y.y + r.mat.z.z)) ≠ 0 := by
      have := hp1
      rw [htr] at this
      positivity
    refine Matrix3.ext_comp ?_ ?_ ?_ ?_ ?_ ?_ ?_ ?_ ?_ <;> dsimp <;>
      rw [div_eq_iff hpne]
    · linear_combination (-1) * hcx + (-1) * hr0 + 2 * ha11 + 2 * ha22
    · linear_combination (-1) * hcxy + (-1) * hr01 + (-1) * ha01 + (-1) * ha10
    · linear_combination (-1) * hcxz + (-1) * hr02 + (-1) * ha02 + (-1) * ha20
    · linear_combination (-1) * hcxy + (-1) * hr01 + (-1) * ha01 + (-1) * ha10
    · linear_combination (-1) * hcy + (-1) * hr1 + 2 * ha00 + 2 * ha22
    · linear_combination (-1) * hcyz + (-1) * hr12 + (-1) * ha12 + (-1) * ha21
    · linear_combination (-1) * hcxz + (-1) * hr02 + (-1) * ha02 + (-1) * ha20
    · linear_combination (-1) * hcyz + (-1) * hr12 + (-1) * ha12 + (-1) * ha21
    · linear_combination (-1) * hcx + (-1) * hcy + (-2) * hcz + hr0 + hr1 +
        2 * ha00 + 2 * ha11
  · -- x-dominant branch
    have hp2 : (0:ℝ) < r.mat.x.x - r.mat.y.y - r.mat.z.z + 1 := by
      linarith [hb2.2, hby1]
    have hcne : Real.sqrt (r.mat.x.x - r.mat.y.y - r.mat.z.z + 1) ≠ 0 :=
      ne_of_gt (Real.sqrt_pos.mpr hp2)
    have hcc : Real.sqrt (r.mat.x.x - r.mat.y.y - r.mat.z.z + 1) *
        Real.sqrt (r.mat.x.x - r.mat.y.y - r.mat.z.z + 1) =
        r.mat.x.x - r.mat.y.y - r.mat.z.z + 1 :=
      Real.mul_self_sqrt (le_of_lt hp2)
    rw [Quaternion.toMatrix3_x_slot _ _ _ _ hcne]
    simp only [hcc]
    refine Basis3.ext ?_
    dsimp
    have hpne : (2:ℝ) * (r.mat.x.x - r.mat.y.y - r.mat.z.z + 1) ≠ 0 := by
      positivity
    refine Matrix3.ext_comp ?_ ?_ ?_ ?_ ?_ ?_ ?_ ?_ ?_ <;> dsimp <;>
      rw [div_eq_iff hpne]
    · linear_combination (-1) * hcx + (-1) * hr0 + (-2) * ha11 + (-2) * ha22
    · linear_combination hcxy + (-1) * hr01 + (-1) * ha01 + ha10
    · linear_combination hcxz + (-1) * hr02 + (-1) * ha02 + ha20
    · linear_combination (-1) * hcxy + hr01 + ha01 + (-1) * ha10
    · linear_combination (-1) * hcx + (-1) * hcz + hr1 + (-2) * ha11
    · linear_combination hcyz + hr12 + (-1) * ha12 + (-1) * ha21
    · linear_combination (-1) * hcxz + hr02 + ha02 + (-1) * ha20
    · linear_combination hcyz + hr12 + (-1) * ha12 + (-1) * ha21
    · linear_combination hcz + (-1) * hr0 + (-1) * hr1 + (-2) * ha22
  · -- y-dominant branch
    have hp3 : (0:ℝ) < r.mat.y.y - r.mat.x.x - r.mat.z.z + 1 := by
      linarith [hb3, hbx0]
    have hcne : Real.sqrt (r.mat.y.y - r.mat.x.x - r.mat.z.z + 1) ≠ 0 :=
      ne_of_gt (Real.sqrt_pos.mpr hp3)
    have hcc : Real.sqrt (r.mat.y.y - r.mat.x.x - r.mat.z.z + 1) *
        Real.sqrt (r.mat.y.y - r.mat.x.x - r.mat.z.z + 1) =
        r.mat.y.y - r.mat.x.x - r.mat.z.z + 1 :=
      Real.mul_self_sqrt (le_of_lt hp3)
    rw [Quaternion.toMatrix3_y_slot _ _ _ _ hcne]
    simp only [hcc]
    refine Basis3.ext ?_
    dsimp
    have hpne : (2:ℝ) * (r.mat.y.y - r.mat.x.x - r.mat.z.z + 1) ≠ 0 := by
      positivity
    refine Matrix3.ext_comp ?_ ?_ ?_ ?_ ?_ ?_ ?_ ?_ ?_ <;> dsimp <;>
      rw [div_eq_iff hpne]
    · linear_combination (-1) * hcy + (-1) * hcz + hr0 + (-2) * ha00
    · linear_combination (-1) * hcxy + hr01 + (-1) * ha01 + ha10
    · linear_combination hcxz + hr02 + (-1) * ha02 + (-1) * ha20
    · linear_combination hcxy + (-1) * hr01 + ha01 + (-1) * ha10
    · linear_combination (-1) * hcy + (-1) * hr1 + (-2) * ha00 + (-2) * ha22
    · linear_combination hcyz + (-1) * hr12 + (-1) * ha12 + ha21
    · linear_combination hcxz + hr02 + (-1) * ha02 + (-1) * ha20
    · linear_combination (-1) * hcyz + hr12 + ha12 + (-1) * ha21
    · linear_combination hcz + (-1) * hr0 + (-1) * hr1 + (-2) * ha22
  · -- z-dominant branch
    have hb1' : r.mat.trace < 0 := lt_of_not_le hb1
    have ht0 : r.mat.x.x + r.mat.y.y + r.mat.z.z < 0 := by
      have htr : r.mat.trace = r.mat.x.x + r.mat.y.y + r.mat.z.z := rfl
      rw [htr] at hb1'
      exact hb1'
    have hb3' : r.mat.y.y ≤ r.mat.z.z := le_of_not_lt hb3
    have hx0z2 : r.mat.x.x ≤ r.mat.z.z := by
      push_neg at hb2
      by_cases hxy : r.mat.y.y < r.mat.x.x
      · exact hb2 hxy
      · push_neg at hxy
        exact le_trans hxy hb3'
    have hp4 : (0:ℝ) < r.mat.z.z - r.mat.x.x - r.mat.y.y + 1 := by
      by_contra hle
      push_neg at hle
      linarith [hx0z2, hb3', hbz2, ht0]
    have hcne : Real.sqrt (r.mat.z.z - r.mat.x.x - r.mat.y.y + 1) ≠ 0 :=
      ne_of_gt (Real.sqrt_pos.mpr hp4)
    have hcc : Real.sqrt (r.mat.z.z - r.mat.x.x - r.mat.y.y + 1) *
        Real.sqrt (r.mat.z.z - r.mat.x.x - r.mat.y.y + 1) =
        r.mat.z.z - r.mat.x.x - r.mat.y.y + 1 :=
      Real.mul_self_sqrt (le_of_lt hp4)
    rw [Quaternion.toMatrix3_z_slot _ _ _ _ hcne]
    simp only [hcc]
    refine Basis3.ext ?_
    dsimp
    have hpne : (2:ℝ) * (r.mat.z.z - r.mat.x.x - r.mat.y.y + 1) ≠ 0 := by
      positivity
    refine Matrix3.ext_comp ?_ ?_ ?_ ?_ ?_ ?_ ?_ ?_ ?_ <;> dsimp <;>
      rw [div_eq_iff hpne]
    · linear_combination (-1) * hcy + (-1) * hcz + hr0 + (-2) * ha00
    · linear_combination hcxy + hr01 + (-1) * ha01 + (-1) * ha10
    · linear_combination (-1) * hcxz + hr02 + (-1) * ha02 + ha20
    · linear_combination hcxy + hr01 + (-1) * ha01 + (-1) * ha10
    · linear_combination (-1) * hcx + (-1) * hcz + hr1 + (-2) * ha11
    · linear_combination (-1) * hcyz + hr12 + (-1) * ha12 + ha21
    · linear_combination hcxz + (-1) * hr02 + ha02 + (-1) * ha20
    · linear_combination hcyz + (-1) * hr12 + ha12 + (-1) * ha21
    · linear_combination (-1) * hcx + (-1) * hcy + (-2) * hcz + hr0 + hr1 +
        (-2) * ha00 + (-2) * ha11

/-- Counterexample for C9 as stated: the reflection `diag(1,1,-1)` is
orthogonal (its columns are orthonormal), but the quaternion round trip
returns the identity matrix instead of reproducing it — quaternions only
represent rotations of determinant one. -/
theorem quaternion_round_trip_counterexample :
    (Basis3.mk ⟨⟨1, 0, 0⟩, ⟨0, 1, 0⟩, ⟨0, 0, -1⟩⟩).Orthogonal ∧
    Basis3.from_quaternion
        (Basis3.mk ⟨⟨1, 0, 0⟩, ⟨0, 1, 0⟩, ⟨0, 0, -1⟩⟩).toQuaternion ≠
      Basis3.mk ⟨⟨1, 0, 0⟩, ⟨0, 1, 0⟩, ⟨0, 0, -1⟩⟩ := by
  constructor
  · unfold Basis3.Orthogonal Matrix3.transpose Matrix3.mul Matrix3.mulVec
      Matrix3.identity
    dsimp
    refine Matrix3.ext_comp ?_ ?_ ?_ ?_ ?_ ?_ ?_ ?_ ?_ <;> dsimp <;> norm_num
  · intro h
    have hz := congrArg (fun b => b.mat.z.z) h
    unfold Basis3.from_quaternion Basis3.toQuaternion Matrix3.toQuaternion at hz
    dsimp at hz
    rw [if_pos (by unfold Matrix3.trace; dsimp; norm_num)] at hz
    unfold Quaternion.toMatrix3 at hz
    dsimp at hz
    norm_num at hz

/-- Witness for C9: the round trip reproduces the concrete proper rotation
`Basis3.one` (orthogonal, determinant one). -/
theorem quaternion_round_trip_witness :
    Basis3.one.Orthogonal ∧ Basis3.one.mat.det = 1 ∧
    Basis3.from_quaternion Basis3.one.toQuaternion = Basis3.one := by
  have hdet : Basis3.one.mat.det = 1 := by
    unfold Basis3.one Matrix3.det Matrix3.identity
    norm_num
  exact ⟨Basis3.one_orthogonal, hdet,
    quaternion_round_trip Basis3.one Basis3.one_orthogonal hdet⟩

end Cgmath

end
